import Mathlib

/-!
Verification development for the snek repository (src/snek.py).

The definitions below are a shallow embedding of the simulation core of
`src/snek.py`: the A* pathfinder (`heuristic`, `astar`), the agent model
(`Snake`), and the per-tick simulation engine (`SnakeGame.tick`,
`player_move`, `ai_move`, spawning and power-up application).

Modelling conventions:
* Python `int` is `Int` (arbitrary precision in both).
* Python tuples `(x, y)` are `Point := Int × Int`.
* Python `%` on ints with a positive modulus is floor-mod, which agrees with
  `Int.emod` (Lean's `%` on `Int`) whenever the modulus is positive; the game
  only ever uses the positive grid dimensions as moduli.
* `Snake.speed_modifier` is a Python float.  Every value the program ever
  stores in it (1.0 at construction, 0.6 and 1.8 in `apply_power`) is an
  exact multiple of 1/10, and its only arithmetic use is
  `int(self.move_delay * modifier)` where `move_delay` is the constant 8, a
  power of two, so the IEEE multiplication is exact scaling of the stored
  double.  The model stores the modifier scaled by ten as an integer
  (10, 6, 18) and computes `(delay * m10) / 10` with truncating division,
  which agrees with the float computation at every reachable value:
  `int(8 * 0.6) = int(4.7999…) = 4 = 48 / 10` and
  `int(8 * 1.8) = int(14.40000…) = 14 = 144 / 10`.
* Randomness (`random.choice`, `random.random`, `random.shuffle`) is modelled
  by threading an explicit stream of naturals (`Rng`); each draw consumes one
  element.  `random.choice l` picks `l[draw % len l]`, `random.random() < 0.5`
  is `draw % 2 = 0`, and `random.shuffle` is a Fisher–Yates pass whose swap
  indices come from the stream, so every permutation Python can produce is
  reachable for some stream and vice versa.
* Python's `heapq` on tuples `(f, g, point, parent)` pops a minimal tuple
  under lexicographic comparison.  In `astar` no two live heap entries share
  `(g, point)` (a re-push of a point requires a strictly smaller g-score), and
  `f = g + h(point)` is determined by `(g, point)`, so the comparison never
  reaches the `parent` component and the heap behaves exactly like "remove
  some entry minimal under the `(f, g, point)` order", which is what `popMin`
  implements.
* Rendering, input polling, `pygame`, and the high-score file I/O are the
  external collaborators excluded from the spec's core; `end_game` is
  modelled as setting the `game_over` flag (the high-score comparison writes
  only to the persistence adapter, not to simulation state).
* The main loop of `astar` is a `while` loop; it is modelled with explicit
  fuel.  Every loop iteration pops one heap entry, each point is expanded at
  most once (the `came_from` guard), expansions push at most four entries and
  only in-grid points (plus the start) are ever popped, so the number of
  iterations is bounded by `4·W·H + 8`; `astar` passes that fuel, hence the
  fuel never runs out on any input on which the Python loop terminates.
-/

namespace Snek

abbrev Point := Int × Int

/-- `def clamp(v, a, b): return max(a, min(b, v))` -/
def clamp (v a b : Int) : Int := max a (min b v)

/-- `def heuristic(a, b): return abs(a[0] - b[0]) + abs(a[1] - b[1])` -/
def heuristic (a b : Point) : Nat := (a.1 - b.1).natAbs + (a.2 - b.2).natAbs

/-- A heap element of `astar`'s `open_set`: the Python tuple
`(f, g, point, parent)`. -/
structure Entry where
  f : Nat
  g : Nat
  p : Point
  par : Option Point
deriving DecidableEq, Repr

/-- Lexicographic comparison of heap entries on `(f, g, point)`; see the
module comment for why the `parent` component is never reached. -/
def keyLe (a b : Entry) : Bool :=
  decide (a.f < b.f ∨ (a.f = b.f ∧ (a.g < b.g ∨ (a.g = b.g ∧
    (a.p.1 < b.p.1 ∨ (a.p.1 = b.p.1 ∧ a.p.2 ≤ b.p.2))))))

/-- `heapq.heappop`: remove an entry minimal under the tuple order. -/
def popMin : List Entry → Option (Entry × List Entry)
  | [] => none
  | e :: es =>
    match popMin es with
    | none => some (e, [])
    | some (m, rest) => if keyLe e m then some (e, es) else some (m, e :: rest)

/-- `gscore.get(p, 1e9)`: the g-score map with the fresh-cell sentinel.
`1e9` is a float in the source, but every comparison made against it is by an
integer small enough to compare exactly. -/
def gLookup (gs : List (Point × Nat)) (p : Point) : Nat :=
  match gs.lookup p with
  | some v => v
  | none => 1000000000

/-- The neighbor list generated at line 75 of the source:
wrap mode reduces each stepped coordinate modulo the grid dimension,
non-wrap mode leaves the raw coordinates (to be bounds-checked by the
caller loop). -/
def neighbors (wrap : Bool) (W H : Int) (c : Point) : List Point :=
  if wrap then
    [((c.1 + 1) % W, c.2), ((c.1 - 1) % W, c.2),
     (c.1, (c.2 + 1) % H), (c.1, (c.2 - 1) % H)]
  else
    [(c.1 + 1, c.2), (c.1 - 1, c.2), (c.1, c.2 + 1), (c.1, c.2 - 1)]

/-- The out-of-bounds test `nx < 0 or nx >= grid_w or ny < 0 or ny >= grid_h`. -/
def oob (W H : Int) (c : Point) : Prop :=
  c.1 < 0 ∨ c.1 ≥ W ∨ c.2 < 0 ∨ c.2 ≥ H

instance (W H : Int) (c : Point) : Decidable (oob W H c) :=
  inferInstanceAs (Decidable (c.1 < 0 ∨ c.1 ≥ W ∨ c.2 < 0 ∨ c.2 ≥ H))

/-- The body of `astar`'s neighbor `for` loop: skip out-of-bounds (non-wrap)
and blocked non-goal cells, push improving tentative scores.  Entries are
consed onto the heap list; the heap is only read through `popMin`, for which
position is irrelevant. -/
def expand (goal : Point) (W H : Int) (blocked : List Point) (wrap : Bool)
    (g : Nat) (cur : Point) :
    List Point → List Entry × List (Point × Nat) → List Entry × List (Point × Nat)
  | [], st => st
  | n :: ns, (open_set, gs) =>
    if ¬wrap ∧ oob W H n then
      expand goal W H blocked wrap g cur ns (open_set, gs)
    else if n ∈ blocked ∧ n ≠ goal then
      expand goal W H blocked wrap g cur ns (open_set, gs)
    else if g + 1 < gLookup gs n then
      expand goal W H blocked wrap g cur ns
        (⟨g + 1 + heuristic n goal, g + 1, n, some cur⟩ :: open_set, (n, g + 1) :: gs)
    else
      expand goal W H blocked wrap g cur ns (open_set, gs)

/-- Path reconstruction: `path = [current]; while parent: path.append(parent);
parent = came_from.get(parent)`, then reversal.  The accumulator already holds
the list in reversed (traversal) order.  Each recorded parent was inserted
into `came_from` strictly before its child, so the walk visits distinct keys
and `came.length + 1` fuel (supplied by the caller) always suffices. -/
def walkParents (came : List (Point × Option Point)) :
    Nat → Option Point → List Point → List Point
  | _, none, acc => acc
  | 0, some _, acc => acc
  | k + 1, some q, acc =>
    walkParents came k (match came.lookup q with
      | some oq => oq
      | none => none) (q :: acc)

/-- The `while open_set:` loop of `astar` (source lines 63–85), with fuel. -/
def astarLoop (goal : Point) (W H : Int) (blocked : List Point) (wrap : Bool) :
    Nat → List Entry → List (Point × Option Point) → List (Point × Nat) →
    Option (List Point)
  | 0, _, _, _ => none
  | fuel + 1, open_set, came, gs =>
    match popMin open_set with
    | none => none
    | some (e, rest) =>
      if e.p = goal then
        some (walkParents came (came.length + 1) e.par [e.p])
      else if (came.lookup e.p).isSome then
        astarLoop goal W H blocked wrap fuel rest came gs
      else
        let st := expand goal W H blocked wrap e.g e.p
          (neighbors wrap W H e.p) (rest, gs)
        astarLoop goal W H blocked wrap fuel st.1 ((e.p, e.par) :: came) st.2

/-- `def astar(start, goal, grid_w, grid_h, blocked, wrap=False)`.
The initial heap holds `(h(start, goal), 0, start, None)` and the initial
g-score map is `{start: 0}`.  See the module comment for the fuel bound. -/
def astar (start goal : Point) (W H : Int) (blocked : List Point)
    (wrap : Bool) : Option (List Point) :=
  astarLoop goal W H blocked wrap (4 * (W.toNat * H.toNat) + 8)
    [⟨heuristic start goal, 0, start, none⟩] [] [(start, 0)]

/-! ## Agent model -/

/-- `POWER_TYPES = ['speed', 'slow', 'invincible', 'shrink', 'multiplier']` -/
inductive PKind
  | speed
  | slow
  | invincible
  | shrink
  | multiplier
deriving DecidableEq, Repr

def POWER_TYPES : List PKind := [.speed, .slow, .invincible, .shrink, .multiplier]

structure Food where
  pos : Point
  value : Int := 1
deriving DecidableEq, Repr

structure PowerUp where
  pos : Point
  kind : PKind
  duration_ticks : Int
deriving DecidableEq, Repr

/-- The `Snake` dataclass.  The render-only `color` field is dropped.
`speed_modifier` is a float in the source; the model stores ten times its
value as an integer (see the module comment for why this is exact for every
value the program assigns). -/
structure Snake where
  body : List Point
  direction : Point
  alive : Bool := true
  grow_pending : Int := 0
  invincible_ticks : Int := 0
  move_tick_counter : Int := 0
  speed_modifier : Int := 10
deriving DecidableEq, Repr

/-- `def head(self): return self.body[0]`.  A Python call on an empty body
raises; the spec calls that state impossible by construction, and the model
returns a default there. -/
def Snake.head (s : Snake) : Point := s.body.headD (0, 0)

/-- `Snake.step`: prepend the new head; pop the tail unless growing or a
growth credit is pending; a pending credit is consumed instead of popping. -/
def Snake.step (s : Snake) (next_pos : Point) (grow : Bool := false) : Snake :=
  let body' := next_pos :: s.body
  if ¬grow ∧ s.grow_pending ≤ 0 then
    { s with body := body'.dropLast }
  else if s.grow_pending > 0 then
    { s with body := body', grow_pending := s.grow_pending - 1 }
  else
    { s with body := body' }

/-- `Snake.change_dir`: refuse an exact reversal when the body is longer
than one cell. -/
def Snake.change_dir (s : Snake) (new_dir : Point) : Snake :=
  if (new_dir.1 * -1, new_dir.2 * -1) = s.direction ∧ s.body.length > 1 then s
  else { s with direction := new_dir }

/-- `def collides(self, pt): return pt in self.body` -/
def Snake.collides (s : Snake) (pt : Point) : Bool := decide (pt ∈ s.body)

/-! ## Randomness model -/

/-- An explicit stream of draws standing in for Python's `random` module: an
arbitrary finite prefix of draws followed by zeros.  Every finite execution
consumes finitely many draws, so every draw sequence Python can produce is
some `Rng`. -/
structure Rng where
  stream : List Nat
  idx : Nat := 0
deriving DecidableEq, Repr

def Rng.next (r : Rng) : Nat × Rng :=
  (r.stream.getD r.idx 0, { r with idx := r.idx + 1 })

/-- `random.choice l` for nonempty `l`; callers guard emptiness. -/
def rchoice {α : Type} (l : List α) (r : Rng) : Option α × Rng :=
  (l.get? (r.next.1 % l.length), r.next.2)

/-- `random.random() < 0.5`, one draw. -/
def rcoin (r : Rng) : Bool × Rng :=
  (decide (r.next.1 % 2 = 0), r.next.2)

def swapAt {α : Type} (l : List α) (i j : Nat) : List α :=
  match l.get? i, l.get? j with
  | some a, some b => (l.set i b).set j a
  | _, _ => l

/-- `random.shuffle`: a Fisher–Yates pass, `for i in range(len-1, 0, -1):
j = draw % (i+1); swap l[i] l[j]`. -/
def shuffleGo {α : Type} (l : List α) (r : Rng) : Nat → List α × Rng
  | 0 => (l, r)
  | i + 1 =>
    shuffleGo (swapAt l (i + 1) (r.next.1 % (i + 2))) r.next.2 i

def shuffle {α : Type} (l : List α) (r : Rng) : List α × Rng :=
  shuffleGo l r (l.length - 1)

/-! ## The simulation engine -/

/-- The mutable state of a `SnakeGame` round (rendering and persistence
fields excluded). -/
structure Game where
  grid_w : Int
  grid_h : Int
  ticks : Int := 0
  move_delay : Int := 8
  score : Int := 0
  level : Int := 1
  wrap : Bool := false
  obstacles : List Point := []
  food : Option Food := none
  powerups : List PowerUp := []
  power_ticks_remaining : List (PKind × Int) := []
  player : Snake
  ai_snake : Snake
  ai_enabled : Bool := true
  paused : Bool := false
  game_over : Bool := false
deriving DecidableEq, Repr

/-- The cell enumeration order of `empty_cells`:
`[(x, y) for x in range(W) for y in range(H)]`. -/
def gridList (W H : Int) : List Point :=
  (List.range W.toNat).flatMap fun x =>
    (List.range H.toNat).map fun y => ((x : Int), (y : Int))

/-- `empty_cells`: all grid cells not occupied by a body, an obstacle, the
food, or a power-up. -/
def empty_cells (g : Game) : List Point :=
  let blocked : List Point :=
    g.player.body ++ g.ai_snake.body ++ g.obstacles ++
      (match g.food with
       | some f => [f.pos]
       | none => []) ++ g.powerups.map (·.pos)
  (gridList g.grid_w g.grid_h).filter (fun c => decide (c ∉ blocked))

/-- `spawn_food`: no-op when the grid is full, else place a value-1 food on a
randomly chosen empty cell. -/
def spawn_food (g : Game) (r : Rng) : Game × Rng :=
  let empty := empty_cells g
  if empty = [] then (g, r)
  else
    let pick := rchoice empty r
    match pick.1 with
    | some c => ({ g with food := some { pos := c, value := 1 } }, pick.2)
    | none => (g, pick.2)

/-- The kind-to-duration table of `spawn_powerup`. -/
def powerDuration : PKind → Int
  | .speed => 200
  | .slow => 300
  | .invincible => 180
  | .shrink => 1
  | .multiplier => 400

/-- `spawn_powerup`: choose a kind, then an empty cell, and append. -/
def spawn_powerup (g : Game) (r : Rng) : Game × Rng :=
  let empty := empty_cells g
  if empty = [] then (g, r)
  else
    let pickK := rchoice POWER_TYPES r
    match pickK.1 with
    | some kind =>
      let pickC := rchoice empty pickK.2
      match pickC.1 with
      | some c =>
        ({ g with powerups := g.powerups ++
            [{ pos := c, kind := kind, duration_ticks := powerDuration kind }] },
         pickC.2)
      | none => (g, pickC.2)
    | none => (g, pickK.2)

def spawn_obstacles_go (g : Game) (r : Rng) : Nat → Game × Rng
  | 0 => (g, r)
  | n + 1 =>
    let empty := empty_cells g
    if empty = [] then (g, r)
    else
      let pick := rchoice empty r
      match pick.1 with
      | some c =>
        spawn_obstacles_go { g with obstacles := g.obstacles ++ [c] } pick.2 n
      | none => (g, pick.2)

/-- `spawn_obstacles`: `clamp(level - 1 + (5 if initial else 0), 0, 50)`
obstacles, each on an empty cell recomputed per placement, stopping early on
a full grid. -/
def spawn_obstacles (g : Game) (r : Rng) (initial : Bool := false) : Game × Rng :=
  spawn_obstacles_go g r
    (clamp (g.level - 1 + (if initial then 5 else 0)) 0 50).toNat

/-- Dictionary update `d[k] = v` for the active power registry. -/
def regSet (reg : List (PKind × Int)) (k : PKind) (v : Int) : List (PKind × Int) :=
  (k, v) :: reg.filter (fun e => decide (e.1 ≠ k))

/-- `'kind' in self.power_ticks_remaining` -/
def regHas (reg : List (PKind × Int)) (k : PKind) : Bool := (reg.lookup k).isSome

/-- `apply_power(self, snake, kind)`: returns the updated snake and the
updated global registry. -/
def apply_power (s : Snake) (kind : PKind) (reg : List (PKind × Int)) :
    Snake × List (PKind × Int) :=
  match kind with
  | .speed => ({ s with speed_modifier := 6, invincible_ticks := 0 },
      regSet reg .speed 300)
  | .slow => ({ s with speed_modifier := 18 }, regSet reg .slow 300)
  | .invincible => ({ s with invincible_ticks := 300 }, regSet reg .invincible 300)
  | .shrink =>
    (if s.body.length > 3 then
       { s with body := s.body.take (s.body.length - max 1 (s.body.length / 4)) }
     else s, reg)
  | .multiplier => (s, regSet reg .multiplier 400)

/-- `end_game`: flags the round over.  The high-score comparison and save it
also performs write only to the external persistence adapter. -/
def end_game (g : Game) : Game := { g with game_over := true }

/-- `def next_pos(self, pos, dir): return (pos[0] + dir[0], pos[1] + dir[1])` -/
def next_pos (pos dir : Point) : Point := (pos.1 + dir.1, pos.2 + dir.2)

/-- `(nx % self.grid_w, ny % self.grid_h)`: the head cell after modulo
folding. -/
def wrapCell (g : Game) (c : Point) : Point := (c.1 % g.grid_w, c.2 % g.grid_h)

/-- The level-up part of the food block (source lines 243–247): bump the
level, spawn obstacles, and with probability one half spawn a power-up. -/
def player_levelup (g : Game) (r : Rng) : Game × Rng :=
  let gL := { g with level := g.level + 1 }
  let sO := spawn_obstacles gL r
  let flip := rcoin sO.2
  if flip.1 then spawn_powerup sO.1 flip.2 else (sO.1, flip.2)

/-- The `if got_food:` block of `player_move` (source lines 240–248): score
with the multiplier presence check, one growth credit,
level-up on score multiples of five, food respawn.
`got_food` was decided before this block runs. -/
def player_food_step (g : Game) (r : Rng) (got_food : Bool) : Game × Rng :=
  if got_food then
    let fval := (g.food.map Food.value).getD 0
    let mult : Int := if regHas g.power_ticks_remaining .multiplier then 2 else 1
    let gA := { g with score := g.score + fval * mult,
                       player := { g.player with
                         grow_pending := g.player.grow_pending + 1 } }
    let sB := if gA.score % 5 = 0 then player_levelup gA r else (gA, r)
    spawn_food sB.1 sB.2
  else (g, r)

/-- The `if got_power:` block of `player_move` (source lines 249–255): apply
the first power-up lying on the new head and remove it.  `got_power` was
decided before the food block ran (on the pre-spawn power-up list), exactly
as in the source. -/
def player_power_step (g : Game) (r : Rng) (new_head : Point)
    (got_power : Bool) : Game × Rng :=
  if got_power then
    match g.powerups.find? (fun p => decide (p.pos = new_head)) with
    | some p =>
      let ap := apply_power g.player p.kind g.power_ticks_remaining
      ({ g with player := ap.1, power_ticks_remaining := ap.2,
                powerups := g.powerups.erase p }, r)
    | none => (g, r)
  else (g, r)

/-- The tail of `player_move` once the candidate coordinates survived (or
bounced off) the boundary check: obstacle/self/cross collisions, food,
power-up pickup, and the final `step`. -/
def player_move_core (g : Game) (r : Rng) (nx ny : Int) : Game × Rng :=
  let new_head : Point := (nx % g.grid_w, ny % g.grid_h)
  if new_head ∈ g.obstacles ∧ g.player.invincible_ticks ≤ 0 then
    (end_game { g with player := { g.player with alive := false } }, r)
  else if g.player.collides new_head ∧ g.player.invincible_ticks ≤ 0 then
    (end_game { g with player := { g.player with alive := false } }, r)
  else if g.ai_snake.collides new_head ∧ g.player.invincible_ticks ≤ 0 then
    (end_game { g with player := { g.player with alive := false } }, r)
  else
    let got_food : Bool :=
      match g.food with
      | some f => decide (new_head = f.pos)
      | none => false
    let got_power : Bool := g.powerups.any (fun p => decide (p.pos = new_head))
    let s1 := player_food_step g r got_food
    let s2 := player_power_step s1.1 s1.2 new_head got_power
    ({ s2.1 with player := s2.1.player.step new_head false }, s2.2)

/-- `player_move` (source lines 216–256). -/
def player_move (g : Game) (r : Rng) : Game × Rng :=
  let c := next_pos g.player.head g.player.direction
  if ¬g.wrap ∧ oob g.grid_w g.grid_h c then
    if g.player.invincible_ticks > 0 then
      player_move_core g r (clamp c.1 0 (g.grid_w - 1)) (clamp c.2 0 (g.grid_h - 1))
    else
      (end_game { g with player := { g.player with alive := false } }, r)
  else
    player_move_core g r c.1 c.2

/-- The qualification test of the AI's randomized fallback: the stepped cell
is in bounds (or wraps), not an obstacle, and not in the AI's own body. -/
def aiFallbackOk (g : Game) (c : Point) : Bool :=
  let n := next_pos g.ai_snake.head c
  if ¬g.wrap ∧ oob g.grid_w g.grid_h n then false
  else
    let nxt := wrapCell g n
    decide (nxt ∉ g.obstacles) && decide (nxt ∉ g.ai_snake.body)

/-- The blocked set handed by the AI to the pathfinder:
obstacles ∪ player body ∪ AI body minus its head. -/
def aiBlocked (g : Game) : List Point :=
  g.obstacles ++ g.player.body ++ g.ai_snake.body.drop 1

/-- The direction-selection phase of `ai_move` (source lines 260–286),
assuming food is present: pathfind, normalize the first step into a unit
direction (with wrap delta folding), or fall back to the shuffled local
search. -/
def aiChooseDir (g : Game) (r : Rng) (food : Food) : Game × Rng :=
  let fallback : Game × Rng :=
    let sh := shuffle [((1 : Int), (0 : Int)), (-1, 0), (0, 1), (0, -1)] r
    match sh.1.find? (fun c => aiFallbackOk g c) with
    | some c => ({ g with ai_snake := g.ai_snake.change_dir c }, sh.2)
    | none => (g, sh.2)
  match astar g.ai_snake.head food.pos g.grid_w g.grid_h (aiBlocked g) g.wrap with
  | some path =>
    if path.length > 1 then
      let nxt := path.getD 1 (0, 0)
      let dx0 := nxt.1 - g.ai_snake.head.1
      let dy0 := nxt.2 - g.ai_snake.head.2
      let dx1 := if g.wrap then (if dx0 > 1 then dx0 - g.grid_w else dx0) else dx0
      let dx := if g.wrap then (if dx1 < -1 then dx1 + g.grid_w else dx1) else dx1
      let dy1 := if g.wrap then (if dy0 > 1 then dy0 - g.grid_h else dy0) else dy0
      let dy := if g.wrap then (if dy1 < -1 then dy1 + g.grid_h else dy1) else dy1
      let nd : Point := (clamp dx (-1) 1, clamp dy (-1) 1)
      let nd := if nd = ((0 : Int), (0 : Int)) then g.ai_snake.direction else nd
      ({ g with ai_snake := g.ai_snake.change_dir nd }, r)
    else fallback
  | none => fallback

/-- The movement-resolution phase of `ai_move` (source lines 287–305):
boundary death (with no invincibility exemption), obstacle/self/cross
collision checks, food pickup, and the final `step`. -/
def aiResolve (g : Game) (r : Rng) : Game × Rng :=
  let c := next_pos g.ai_snake.head g.ai_snake.direction
  if ¬g.wrap ∧ oob g.grid_w g.grid_h c then
    ({ g with ai_snake := { g.ai_snake with alive := false } }, r)
  else
    let new_head := wrapCell g c
    if new_head ∈ g.obstacles ∧ g.ai_snake.invincible_ticks ≤ 0 then
      ({ g with ai_snake := { g.ai_snake with alive := false } }, r)
    else if g.ai_snake.collides new_head ∧ g.ai_snake.invincible_ticks ≤ 0 then
      ({ g with ai_snake := { g.ai_snake with alive := false } }, r)
    else if g.player.collides new_head ∧ g.ai_snake.invincible_ticks ≤ 0 then
      ({ g with ai_snake := { g.ai_snake with alive := false } }, r)
    else
      let got_food : Bool :=
        match g.food with
        | some f => decide (new_head = f.pos)
        | none => false
      let s1 :=
        if got_food then
          spawn_food { g with ai_snake := { g.ai_snake with
            grow_pending := g.ai_snake.grow_pending + 1 } } r
        else (g, r)
      ({ s1.1 with ai_snake := s1.1.ai_snake.step new_head false }, s1.2)

/-- `ai_move` (source lines 257–305): `if not self.food: return`, else choose
a direction and resolve the move. -/
def ai_move (g : Game) (r : Rng) : Game × Rng :=
  match g.food with
  | none => (g, r)
  | some food =>
    let st := aiChooseDir g r food
    aiResolve st.1 st.2

/-- `max(1, int(self.move_delay * modifier))`: the per-agent move cadence
threshold computed at the top of `tick`.  `modifier10` is ten times the float
modifier; the product and the division by ten are nonnegative on every
reachable state, where truncating division agrees with the float `int()`. -/
def moveDelay (delay : Int) (modifier10 : Int) : Int :=
  max 1 ((delay * modifier10) / 10)

/-- `if snake.invincible_ticks > 0: snake.invincible_ticks -= 1` -/
def decInv (s : Snake) : Snake :=
  if s.invincible_ticks > 0 then
    { s with invincible_ticks := s.invincible_ticks - 1 }
  else s

/-- The trailing part of `tick` (source lines 208–215): invincibility
countdowns and on-board power-up decay/expiry. -/
def tickDecay (g : Game) : Game :=
  let g := { g with player := decInv g.player }
  let g := { g with ai_snake := decInv g.ai_snake }
  let decayed :=
    (g.powerups.map (fun p => { p with duration_ticks := p.duration_ticks - 1 })).filter
      (fun p => decide (p.duration_ticks > 0))
  { g with powerups := decayed }

/-- The player half of `tick` (source lines 196–202): bump the round tick
counter and the player's cadence counter, and fire `player_move` (with the
cadence counter reset to zero) when the threshold is reached.  The player's
threshold is computed from the player's modifier, which nothing before the
comparison can change, so computing it here matches the source computing it
at the top of `tick`. -/
def tickPlayerPhase (g : Game) (r : Rng) : Game × Rng :=
  let player_delay := moveDelay g.move_delay g.player.speed_modifier
  let g0 := { g with ticks := g.ticks + 1,
                     player := { g.player with
                       move_tick_counter := g.player.move_tick_counter + 1 } }
  if g0.player.move_tick_counter ≥ player_delay then
    player_move { g0 with player := { g0.player with move_tick_counter := 0 } } r
  else (g0, r)

/-- The AI half of `tick` (source lines 203–207), given the AI threshold that
the source computed at the top of `tick`, before the player moved. -/
def tickAiPhase (g : Game) (r : Rng) (ai_delay : Int) : Game × Rng :=
  if g.ai_enabled then
    let gA := { g with ai_snake := { g.ai_snake with
      move_tick_counter := g.ai_snake.move_tick_counter + 1 } }
    if gA.ai_snake.move_tick_counter ≥ ai_delay then
      ai_move { gA with ai_snake := { gA.ai_snake with move_tick_counter := 0 } } r
    else (gA, r)
  else (g, r)

/-- `tick` (source lines 193–215): skip when paused or over, resolve the
player phase, then the AI phase (whose cadence threshold was computed from
the pre-move state), then run the decays. -/
def tick (g : Game) (r : Rng) : Game × Rng :=
  if g.paused ∨ g.game_over then (g, r)
  else
    let ai_delay := moveDelay g.move_delay g.ai_snake.speed_modifier
    let s1 := tickPlayerPhase g r
    let s2 := tickAiPhase s1.1 s1.2 ai_delay
    (tickDecay s2.1, s2.2)

/-! ## Concrete states used by the claim checks -/

/-- A fixed random stream (every draw is 0). -/
def rng0 : Rng := { stream := [] }

/-- `tick` as a self-map of simulation-plus-stream states. -/
def tickP (p : Game × Rng) : Game × Rng := tick p.1 p.2

/-- A wrap-mode round with the AI disabled, the player cruising along row 0,
food 51 cells ahead, and the score at 1. -/
def gC2base : Game := {
  grid_w := 64, grid_h := 2, wrap := true
  score := 1
  food := some { pos := (51, 0) }
  player := { body := [(0, 0), (63, 0), (62, 0), (61, 0)], direction := (1, 0) }
  ai_snake := { body := [(0, 1)], direction := (1, 0) }
  ai_enabled := false }

/-- `gC2base` immediately after the player consumes a `multiplier` power-up
(the registry entry is set to 400). -/
def gC2 : Game :=
  let ap := apply_power gC2base.player .multiplier gC2base.power_ticks_remaining
  { gC2base with player := ap.1, power_ticks_remaining := ap.2 }

/-- The state reached from `gC2` after 204 ticks (25 player moves, nothing
consumed): the intermediate literal that lets the 408-tick run be checked in
two kernel-sized halves. -/
def gC2mid : Game := {
  grid_w := 64, grid_h := 2, ticks := 204, wrap := true
  score := 1
  food := some { pos := (51, 0) }
  power_ticks_remaining := [(.multiplier, 400)]
  player := { body := [(25, 0), (24, 0), (23, 0), (22, 0)], direction := (1, 0),
              move_tick_counter := 4 }
  ai_snake := { body := [(0, 1)], direction := (1, 0) }
  ai_enabled := false }

/-- A foodless wrap-mode round whose AI is one tick away from its scheduled
move. -/
def gC3 : Game := {
  grid_w := 8, grid_h := 8, wrap := true
  food := none
  player := { body := [(0, 0), (7, 0)], direction := (1, 0) }
  ai_snake := { body := [(4, 4), (5, 4)], direction := (-1, 0),
                move_tick_counter := 7 } }

/-- A round whose player carries the `speed` modifier (0.6, stored as 6
tenths) and whose cadence counter is about to hit the truncated threshold. -/
def gC4 : Game := {
  grid_w := 8, grid_h := 8, wrap := true
  food := none
  player := { body := [(0, 0), (7, 0), (6, 0), (5, 0)], direction := (1, 0),
              move_tick_counter := 3, speed_modifier := 6 }
  ai_snake := { body := [(4, 4)], direction := (1, 0) }
  ai_enabled := false }

/-- A bounded round whose invincible AI sits against the right wall, fenced
in (tail behind, obstacle above, walls right and below), with food out of
pathfinding reach. -/
def gC5 : Game := {
  grid_w := 8, grid_h := 8, wrap := false
  obstacles := [(7, 1)]
  food := some { pos := (4, 4) }
  player := { body := [(0, 5), (1, 5)], direction := (1, 0) }
  ai_snake := { body := [(7, 0), (6, 0), (5, 0), (4, 0)], direction := (1, 0),
                invincible_ticks := 100 } }

/-- A bounded round whose invincible player is about to run into the right
wall. -/
def gC6 : Game := {
  grid_w := 8, grid_h := 8, wrap := false
  food := none
  player := { body := [(7, 0), (6, 0), (5, 0), (4, 0)], direction := (1, 0),
              invincible_ticks := 50 }
  ai_snake := { body := [(0, 5)], direction := (1, 0) } }

/-- A bounded round in which both agents are one tick from their scheduled
moves and head for the same empty cell `(4, 3)`: the player from the left,
the AI (fenced above and below so its pathfinder fails and its fallback must
step left) from the right. -/
def gC7 : Game := {
  grid_w := 8, grid_h := 8, wrap := false
  obstacles := [(5, 2), (5, 4)]
  food := some { pos := (0, 7) }
  player := { body := [(3, 3), (2, 3)], direction := (1, 0),
              move_tick_counter := 7 }
  ai_snake := { body := [(5, 3), (6, 3)], direction := (-1, 0),
                move_tick_counter := 7 } }

/-! ## A* support definitions -/

/-- In-bounds predicate: the complement of `oob`. -/
def inBounds (W H : Int) (c : Point) : Prop :=
  0 ≤ c.1 ∧ c.1 < W ∧ 0 ≤ c.2 ∧ c.2 < H

instance (W H : Int) (c : Point) : Decidable (inBounds W H c) :=
  inferInstanceAs (Decidable (0 ≤ c.1 ∧ c.1 < W ∧ 0 ≤ c.2 ∧ c.2 < H))

/-- One legal pathfinder step: `b` is a generated neighbor of `a` that
survives the non-wrap bounds filter. -/
def stepOK (wrap : Bool) (W H : Int) (a b : Point) : Prop :=
  b ∈ neighbors wrap W H a ∧ ¬(¬wrap ∧ oob W H b)

instance (wrap : Bool) (W H : Int) (a b : Point) :
    Decidable (stepOK wrap W H a b) :=
  inferInstanceAs (Decidable
    (b ∈ neighbors wrap W H a ∧ ¬(¬wrap ∧ oob W H b)))

/-- A cell the pathfinder may enter: not blocked, unless it is the goal. -/
def passableCell (blocked : List Point) (goal c : Point) : Prop :=
  ¬(c ∈ blocked ∧ c ≠ goal)

instance (blocked : List Point) (goal c : Point) :
    Decidable (passableCell blocked goal c) :=
  inferInstanceAs (Decidable ¬(c ∈ blocked ∧ c ≠ goal))

/-! ## came-from chains and path reconstruction -/

/-- `Chain came op l`: following parent pointers from `op` down to the start
entry (`none`) visits exactly the cells of `l` (in path order, oldest
first). -/
inductive Chain (came : List (Point × Option Point)) :
    Option Point → List Point → Prop
  | nil : Chain came none []
  | cons (q : Point) (oq : Option Point) (l : List Point) :
      came.lookup q = some oq → Chain came oq l → Chain came (some q) (l ++ [q])

/-! ## The soundness invariant -/

/-- The facts carried for every heap entry: the f-value characterization, the
g-score sentinel bound, and a came-from chain witnessing an actual path of
length `g` from the start to the entry's cell. -/
structure EntryInvS (start goal : Point) (W H : Int) (blocked : List Point)
    (wrap : Bool) (came : List (Point × Option Point)) (e : Entry) : Prop where
  fchar : e.f = e.g + heuristic e.p goal
  gbound : e.g ≤ 999999999
  chain : ∃ l, Chain came e.par l ∧ l.length = e.g ∧
    (l ++ [e.p]).head? = some start ∧
    List.Chain' (stepOK wrap W H) (l ++ [e.p]) ∧
    ∀ c ∈ (l ++ [e.p]).tail, passableCell blocked goal c

/-! ## The completeness invariant -/

/-- Everything the search loop maintains on the way to the goal, for a fixed
witness walk `w` of length `D` (non-wrap mode).  `came` holds the closed set,
`gs` the g-score map, `o` the open heap. -/
structure LoopInv (start goal : Point) (W H : Int) (blocked : List Point)
    (w : Nat → Point) (D : Nat) (o : List Entry)
    (came : List (Point × Option Point)) (gs : List (Point × Nat)) :
    Prop where
  keysNodup : (came.map Prod.fst).Nodup
  entryInv : ∀ e ∈ o, EntryInvS start goal W H blocked false came e
  gsBound : ∀ pv ∈ gs, pv.2 ≤ 999999999
  goalFresh : came.lookup goal = none
  openInB : ∀ e ∈ o, inBounds W H e.p
  keysInB : ∀ k ∈ came.map Prod.fst, inBounds W H k
  gsEntry : ∀ e ∈ o, gLookup gs e.p ≤ e.g
  startG : gLookup gs start = 0
  ginv : ∀ p, came.lookup p = none → gLookup gs p ≤ 999999999 →
    ∃ e ∈ o, e.p = p ∧ e.g = gLookup gs p
  nbrG : ∀ j, j < D → came.lookup (w j) ≠ none →
    gLookup gs (w (j + 1)) ≤ j + 1

/-! ## The straight staircase walk -/

/-- One unit step from `p` toward `goal`, x-axis first — exactly one
Manhattan-distance unit when `p ≠ goal`. -/
def stepToward (goal p : Point) : Point :=
  if p.1 < goal.1 then (p.1 + 1, p.2)
  else if goal.1 < p.1 then (p.1 - 1, p.2)
  else if p.2 < goal.2 then (p.1, p.2 + 1)
  else (p.1, p.2 - 1)

/-- The staircase walk from `start` toward `goal`. -/
def walkTo (start goal : Point) : Nat → Point
  | 0 => start
  | i + 1 => stepToward goal (walkTo start goal i)

/-! ## Claim C10 — growth semantics of `Snake.step` -/

/-- C10: `advance(c, grow=False)` with zero pending growth credits leaves the
body length unchanged (the head is prepended, the tail removed); with n ≥ 1
pending credits it increases the body length by exactly one and decreases the
pending-credit counter by exactly one. -/
theorem C10_growth (s : Snake) (c : Point) :
    (s.grow_pending = 0 →
      (s.step c false).body.length = s.body.length ∧
      (s.step c false).grow_pending = 0) ∧
    (1 ≤ s.grow_pending →
      (s.step c false).body.length = s.body.length + 1 ∧
      (s.step c false).grow_pending = s.grow_pending - 1) := by
  constructor
  · intro h
    have hc : (¬(false : Bool) ∧ s.grow_pending ≤ 0) := by simp [h]
    simp only [Snake.step, if_pos hc]
    simp [h, List.length_dropLast]
  · intro h
    have hc : ¬(¬(false : Bool) ∧ s.grow_pending ≤ 0) := by
      simp only [not_and]
      intro _
      omega
    have hg : s.grow_pending > 0 := by omega
    simp only [Snake.step, if_neg hc, if_pos hg]
    simp

/-- C10 witness: a two-cell snake with no credits keeps length 2; one with two
credits grows to length 3 and drops to one credit. -/
theorem C10_growth_witness :
    (let s1 : Snake := { body := [(0, 0), (1, 0)], direction := (1, 0) }
     (s1.step (5, 5) false).body.length = s1.body.length ∧
       (s1.step (5, 5) false).grow_pending = 0) ∧
    (let s2 : Snake := { body := [(0, 0), (1, 0)], direction := (1, 0),
                         grow_pending := 2 }
     (s2.step (5, 5) false).body.length = s2.body.length + 1 ∧
       (s2.step (5, 5) false).grow_pending = s2.grow_pending - 1) :=
  ⟨(C10_growth { body := [(0, 0), (1, 0)], direction := (1, 0) } (5, 5)).1
      (by decide),
   (C10_growth { body := [(0, 0), (1, 0)], direction := (1, 0),
                 grow_pending := 2 } (5, 5)).2 (by decide)⟩

/-! ## Claim C2 — the multiplier never expires -/

set_option maxRecDepth 100000 in
/-- C2 (code bug): `apply_power` sets the multiplier registry entry to 400,
but no code path ever decrements or removes an entry of
`power_ticks_remaining` (the per-tick decay loop touches only the on-board
`powerups` list), and the scoring check at line 241 tests only key presence.
408 ticks after the power-up was applied the player's food pickup still adds
`food.value * 2`; the claim — and the registry's own name and stored
duration — require `food.value * 1` once 400 ticks have elapsed. -/
theorem C2_multiplier_never_expires :
    gC2.power_ticks_remaining = [(.multiplier, 400)] ∧
    (tickP^[408] (gC2, rng0)).1.ticks = 408 ∧
    (tickP^[408] (gC2, rng0)).1.score = gC2base.score + 2 ∧
    (tickP^[408] (gC2, rng0)).1.power_ticks_remaining = [(.multiplier, 400)] := by
  have h1 : tickP^[204] (gC2, rng0) = (gC2mid, rng0) := by decide
  have h2 : tickP^[408] (gC2, rng0) = tickP^[204] (tickP^[204] (gC2, rng0)) :=
    Function.iterate_add_apply tickP 204 204 (gC2, rng0)
  rw [h2, h1]
  exact ⟨by decide, by decide, by decide, by decide⟩

/-! ## Claim C3 — the foodless AI move is skipped outright -/

/-- C3 counterexample: in `gC3` the AI's cadence counter fires, food is
absent, and `ai_move` returns at once: the AI neither runs the randomized
fallback (the stream index is untouched, so no shuffle happened) nor its
boundary/collision/move resolution (body unchanged) — the move is simply
skipped, contradicting the claim. -/
theorem C3_counterexample :
    gC3.food = none ∧
    (tick gC3 rng0).1.ai_snake.move_tick_counter = 0 ∧
    (tick gC3 rng0).1.ai_snake.body = gC3.ai_snake.body ∧
    (tick gC3 rng0).1.ai_snake.alive = true ∧
    (tick gC3 rng0).2.idx = rng0.idx := by decide

/-! ## Claim C4 — the cadence threshold truncates -/

/-- C4 counterexample: with the speed modifier 0.6 the claimed threshold is
`max(1, round(8 × 0.6)) = 5`, yet `gC4`'s player, whose incremented counter
only reaches 4, moves on this tick (the code truncates: `int(8 × 0.6) = 4`)
and its counter resets to zero. -/
theorem C4_counterexample :
    gC4.player.move_tick_counter + 1 = 4 ∧
    max 1 (round ((8 : ℚ) * (6 / 10))) = 5 ∧
    (tick gC4 rng0).1.player.body = [(1, 0), (0, 0), (7, 0), (6, 0)] ∧
    (tick gC4 rng0).1.player.move_tick_counter = 0 := by
  refine ⟨by decide, ?_, by decide, by decide⟩
  have : ((8 : ℚ) * (6 / 10)) = 24 / 5 := by norm_num
  rw [this]
  norm_num [round_eq]

/-! ## Claim C5 — boundary handling is asymmetric -/

/-- C5 counterexample: `gC5`'s AI is invincible (100 ticks), the round is
bounded, its fenced-in pathfinder and fallback leave it aimed at the wall,
and `ai_move` kills it anyway: the AI boundary check at lines 288–290 has no
invincibility exemption, so the claim's "player and AI alike" fails. -/
theorem C5_counterexample :
    0 < gC5.ai_snake.invincible_ticks ∧
    gC5.wrap = false ∧
    oob gC5.grid_w gC5.grid_h
      (next_pos gC5.ai_snake.head gC5.ai_snake.direction) ∧
    (ai_move gC5 rng0).1.ai_snake.alive = false ∧
    (ai_move gC5 rng0).1.ai_snake.body = gC5.ai_snake.body := by decide

/-! ## Claim C6 — invincible moves can duplicate body cells -/

/-- C6 counterexample: `gC6`'s invincible player bounces off the right wall;
the clamped candidate equals its own head cell, the self-collision check is
skipped because of invincibility, and `step` produces the body
`[(7,0), (7,0), (6,0), (5,0)]` with a duplicate cell, contradicting the
claimed invariant for moves made while `invincible_ticks` is positive. -/
theorem C6_counterexample :
    0 < gC6.player.invincible_ticks ∧
    gC6.player.body.Nodup ∧
    (player_move gC6 rng0).1.player.body = [(7, 0), (7, 0), (6, 0), (5, 0)] ∧
    ¬(player_move gC6 rng0).1.player.body.Nodup := by decide


/-! ## Frame and small-step lemmas -/

theorem step_fields (s : Snake) (c : Point) (b : Bool) :
    (s.step c b).alive = s.alive ∧
    (s.step c b).direction = s.direction ∧
    (s.step c b).invincible_ticks = s.invincible_ticks ∧
    (s.step c b).move_tick_counter = s.move_tick_counter ∧
    (s.step c b).speed_modifier = s.speed_modifier := by
  unfold Snake.step
  split_ifs <;> exact ⟨rfl, rfl, rfl, rfl, rfl⟩

theorem step_body_cases (s : Snake) (c : Point) (b : Bool) :
    (s.step c b).body = (c :: s.body).dropLast ∨
    (s.step c b).body = c :: s.body := by
  unfold Snake.step
  split_ifs
  · exact Or.inl rfl
  · exact Or.inr rfl
  · exact Or.inr rfl

theorem step_head (s : Snake) (c : Point) (b : Bool) (h : s.body ≠ []) :
    (s.step c b).body.head? = some c := by
  obtain ⟨a, l, hl⟩ := List.exists_cons_of_ne_nil h
  rcases step_body_cases s c b with he | he <;> rw [he]
  · rw [hl, List.dropLast_cons₂]
    rfl
  · rfl

theorem step_body_ne_nil (s : Snake) (c : Point) (b : Bool) (h : s.body ≠ []) :
    (s.step c b).body ≠ [] := by
  obtain ⟨a, l, hl⟩ := List.exists_cons_of_ne_nil h
  rcases step_body_cases s c b with he | he <;> rw [he]
  · rw [hl, List.dropLast_cons₂]
    simp
  · simp

theorem step_nodup (s : Snake) (c : Point) (b : Bool)
    (h : s.body.Nodup) (hc : c ∉ s.body) :
    (s.step c b).body.Nodup := by
  have hcons : (c :: s.body).Nodup := List.nodup_cons.2 ⟨hc, h⟩
  rcases step_body_cases s c b with he | he <;> rw [he]
  · exact List.Nodup.sublist (List.dropLast_sublist _) hcons
  · exact hcons

theorem change_dir_fields (s : Snake) (d : Point) :
    (s.change_dir d).body = s.body ∧
    (s.change_dir d).alive = s.alive ∧
    (s.change_dir d).invincible_ticks = s.invincible_ticks ∧
    (s.change_dir d).move_tick_counter = s.move_tick_counter ∧
    (s.change_dir d).grow_pending = s.grow_pending := by
  unfold Snake.change_dir
  split_ifs <;> exact ⟨rfl, rfl, rfl, rfl, rfl⟩

theorem spawn_food_frame (g : Game) (r : Rng) :
    (spawn_food g r).1.player = g.player ∧
    (spawn_food g r).1.ai_snake = g.ai_snake ∧
    (spawn_food g r).1.game_over = g.game_over ∧
    (spawn_food g r).1.ai_enabled = g.ai_enabled := by
  unfold spawn_food
  dsimp only
  split
  · exact ⟨rfl, rfl, rfl, rfl⟩
  · split <;> exact ⟨rfl, rfl, rfl, rfl⟩

theorem spawn_powerup_frame (g : Game) (r : Rng) :
    (spawn_powerup g r).1.player = g.player ∧
    (spawn_powerup g r).1.ai_snake = g.ai_snake ∧
    (spawn_powerup g r).1.game_over = g.game_over ∧
    (spawn_powerup g r).1.ai_enabled = g.ai_enabled := by
  unfold spawn_powerup
  dsimp only
  split
  · exact ⟨rfl, rfl, rfl, rfl⟩
  · split
    · split <;> exact ⟨rfl, rfl, rfl, rfl⟩
    · exact ⟨rfl, rfl, rfl, rfl⟩

theorem spawn_obstacles_go_frame (n : Nat) :
    ∀ (g : Game) (r : Rng),
    (spawn_obstacles_go g r n).1.player = g.player ∧
    (spawn_obstacles_go g r n).1.ai_snake = g.ai_snake ∧
    (spawn_obstacles_go g r n).1.game_over = g.game_over ∧
    (spawn_obstacles_go g r n).1.ai_enabled = g.ai_enabled := by
  induction n with
  | zero => exact fun g r => ⟨rfl, rfl, rfl, rfl⟩
  | succ n ih =>
    intro g r
    unfold spawn_obstacles_go
    dsimp only
    split
    · exact ⟨rfl, rfl, rfl, rfl⟩
    · split
      · exact ih _ _
      · exact ⟨rfl, rfl, rfl, rfl⟩

theorem spawn_obstacles_frame (g : Game) (r : Rng) (b : Bool) :
    (spawn_obstacles g r b).1.player = g.player ∧
    (spawn_obstacles g r b).1.ai_snake = g.ai_snake ∧
    (spawn_obstacles g r b).1.game_over = g.game_over ∧
    (spawn_obstacles g r b).1.ai_enabled = g.ai_enabled := by
  unfold spawn_obstacles
  exact spawn_obstacles_go_frame _ g r

theorem player_levelup_frame (g : Game) (r : Rng) :
    (player_levelup g r).1.player = g.player ∧
    (player_levelup g r).1.ai_snake = g.ai_snake ∧
    (player_levelup g r).1.game_over = g.game_over ∧
    (player_levelup g r).1.ai_enabled = g.ai_enabled := by
  unfold player_levelup
  dsimp only
  split
  · refine ⟨?_, ?_, ?_, ?_⟩
    · rw [(spawn_powerup_frame _ _).1, (spawn_obstacles_frame _ _ _).1]
    · rw [(spawn_powerup_frame _ _).2.1, (spawn_obstacles_frame _ _ _).2.1]
    · rw [(spawn_powerup_frame _ _).2.2.1, (spawn_obstacles_frame _ _ _).2.2.1]
    · rw [(spawn_powerup_frame _ _).2.2.2, (spawn_obstacles_frame _ _ _).2.2.2]
  · exact ⟨(spawn_obstacles_frame _ _ _).1, (spawn_obstacles_frame _ _ _).2.1,
      (spawn_obstacles_frame _ _ _).2.2.1, (spawn_obstacles_frame _ _ _).2.2.2⟩

theorem player_food_step_frame (g : Game) (r : Rng) (b : Bool) :
    (player_food_step g r b).1.player =
      (if b then { g.player with grow_pending := g.player.grow_pending + 1 }
       else g.player) ∧
    (player_food_step g r b).1.ai_snake = g.ai_snake ∧
    (player_food_step g r b).1.game_over = g.game_over ∧
    (player_food_step g r b).1.ai_enabled = g.ai_enabled := by
  unfold player_food_step
  cases b
  · exact ⟨rfl, rfl, rfl, rfl⟩
  · dsimp only
    rw [if_pos rfl, if_pos rfl]
    split_ifs <;>
      exact ⟨by simp only [(spawn_food_frame _ _).1, (player_levelup_frame _ _).1],
        by simp only [(spawn_food_frame _ _).2.1, (player_levelup_frame _ _).2.1],
        by simp only [(spawn_food_frame _ _).2.2.1, (player_levelup_frame _ _).2.2.1],
        by simp only [(spawn_food_frame _ _).2.2.2, (player_levelup_frame _ _).2.2.2]⟩

theorem apply_power_fields (s : Snake) (k : PKind) (reg : List (PKind × Int)) :
    (apply_power s k reg).1.body.Sublist s.body ∧
    ((apply_power s k reg).1.body = [] → s.body = []) ∧
    (apply_power s k reg).1.alive = s.alive ∧
    (apply_power s k reg).1.move_tick_counter = s.move_tick_counter ∧
    (apply_power s k reg).1.direction = s.direction := by
  cases k
  case speed => exact ⟨List.Sublist.refl _, fun h => h, rfl, rfl, rfl⟩
  case slow => exact ⟨List.Sublist.refl _, fun h => h, rfl, rfl, rfl⟩
  case invincible => exact ⟨List.Sublist.refl _, fun h => h, rfl, rfl, rfl⟩
  case multiplier => exact ⟨List.Sublist.refl _, fun h => h, rfl, rfl, rfl⟩
  case shrink =>
    unfold apply_power
    dsimp only
    split
    · refine ⟨List.take_sublist _ _, ?_, rfl, rfl, rfl⟩
      intro h
      have hlen := congrArg List.length h
      simp only [List.length_take, List.length_nil] at hlen
      have : 3 < s.body.length := by assumption
      omega
    · exact ⟨List.Sublist.refl _, fun h => h, rfl, rfl, rfl⟩

theorem player_power_step_frame (g : Game) (r : Rng) (nh : Point) (b : Bool) :
    (player_power_step g r nh b).1.player.body.Sublist g.player.body ∧
    ((player_power_step g r nh b).1.player.body = [] → g.player.body = []) ∧
    (player_power_step g r nh b).1.player.alive = g.player.alive ∧
    (player_power_step g r nh b).1.player.move_tick_counter =
      g.player.move_tick_counter ∧
    (player_power_step g r nh b).1.ai_snake = g.ai_snake ∧
    (player_power_step g r nh b).1.game_over = g.game_over ∧
    (player_power_step g r nh b).1.ai_enabled = g.ai_enabled := by
  unfold player_power_step
  cases b
  · exact ⟨List.Sublist.refl _, fun h => h, rfl, rfl, rfl, rfl, rfl⟩
  · dsimp only
    rw [if_pos rfl]
    split
    · exact ⟨(apply_power_fields _ _ _).1, (apply_power_fields _ _ _).2.1,
        (apply_power_fields _ _ _).2.2.1, (apply_power_fields _ _ _).2.2.2.1,
        rfl, rfl, rfl⟩
    · exact ⟨List.Sublist.refl _, fun h => h, rfl, rfl, rfl, rfl, rfl⟩

theorem player_move_core_frame (g : Game) (r : Rng) (nx ny : Int) :
    (player_move_core g r nx ny).1.ai_snake = g.ai_snake ∧
    (player_move_core g r nx ny).1.ai_enabled = g.ai_enabled ∧
    (player_move_core g r nx ny).1.player.move_tick_counter =
      g.player.move_tick_counter := by
  unfold player_move_core
  dsimp only
  split_ifs
  · exact ⟨rfl, rfl, rfl⟩
  · exact ⟨rfl, rfl, rfl⟩
  · exact ⟨rfl, rfl, rfl⟩
  · refine ⟨?_, ?_, ?_⟩
    · rw [(player_power_step_frame _ _ _ _).2.2.2.2.1, (player_food_step_frame _ _ _).2.1]
    · rw [(player_power_step_frame _ _ _ _).2.2.2.2.2.2, (player_food_step_frame _ _ _).2.2.2]
    · rw [(step_fields _ _ _).2.2.2.1, (player_power_step_frame _ _ _ _).2.2.2.1,
        (player_food_step_frame _ _ _).1]
      split <;> rfl

theorem player_move_frame (g : Game) (r : Rng) :
    (player_move g r).1.ai_snake = g.ai_snake ∧
    (player_move g r).1.ai_enabled = g.ai_enabled ∧
    (player_move g r).1.player.move_tick_counter = g.player.move_tick_counter := by
  unfold player_move
  dsimp only
  split_ifs
  · exact player_move_core_frame _ _ _ _
  · exact ⟨rfl, rfl, rfl⟩
  · exact player_move_core_frame _ _ _ _

theorem player_food_step_body (g : Game) (r : Rng) (b : Bool) :
    (player_food_step g r b).1.player.body = g.player.body := by
  rw [(player_food_step_frame g r b).1]
  split <;> rfl

theorem player_food_step_alive (g : Game) (r : Rng) (b : Bool) :
    (player_food_step g r b).1.player.alive = g.player.alive := by
  rw [(player_food_step_frame g r b).1]
  split <;> rfl

theorem player_move_core_invincible (g : Game) (r : Rng) (nx ny : Int)
    (hinv : 0 < g.player.invincible_ticks) (hne : g.player.body ≠ []) :
    (player_move_core g r nx ny).1.player.alive = g.player.alive ∧
    (player_move_core g r nx ny).1.game_over = g.game_over ∧
    (player_move_core g r nx ny).1.player.body.head? =
      some (nx % g.grid_w, ny % g.grid_h) := by
  unfold player_move_core
  dsimp only
  have h1 : ¬((nx % g.grid_w, ny % g.grid_h) ∈ g.obstacles ∧
      g.player.invincible_ticks ≤ 0) := by
    rintro ⟨-, h⟩
    omega
  have h2 : ¬(g.player.collides (nx % g.grid_w, ny % g.grid_h) = true ∧
      g.player.invincible_ticks ≤ 0) := by
    rintro ⟨-, h⟩
    omega
  have h3 : ¬(g.ai_snake.collides (nx % g.grid_w, ny % g.grid_h) = true ∧
      g.player.invincible_ticks ≤ 0) := by
    rintro ⟨-, h⟩
    omega
  rw [if_neg h1, if_neg h2, if_neg h3]
  refine ⟨?_, ?_, ?_⟩
  · rw [(step_fields _ _ _).1, (player_power_step_frame _ _ _ _).2.2.1,
      player_food_step_alive]
  · rw [(player_power_step_frame _ _ _ _).2.2.2.2.2.1,
      (player_food_step_frame _ _ _).2.2.1]
  · apply step_head
    intro hb
    exact hne (by
      have := (player_power_step_frame _ _ _ _).2.1 hb
      rwa [player_food_step_body] at this)

theorem player_move_core_nodup (g : Game) (r : Rng) (nx ny : Int)
    (hinv : g.player.invincible_ticks ≤ 0)
    (hnd : g.player.body.Nodup) (hne : g.player.body ≠ []) :
    (player_move_core g r nx ny).1.player.body.Nodup ∧
    (player_move_core g r nx ny).1.player.body ≠ [] := by
  unfold player_move_core
  dsimp only
  split_ifs with h1 h2 h3
  · exact ⟨hnd, hne⟩
  · exact ⟨hnd, hne⟩
  · exact ⟨hnd, hne⟩
  · have hmem : (nx % g.grid_w, ny % g.grid_h) ∉ g.player.body := by
      intro hm
      exact h2 ⟨by simpa [Snake.collides] using hm, hinv⟩
    constructor
    · apply step_nodup
      · exact List.Nodup.sublist (player_power_step_frame _ _ _ _).1
          (by rw [player_food_step_body]; exact hnd)
      · intro hm
        have := (player_power_step_frame _ _ _ _).1.subset hm
        rw [player_food_step_body] at this
        exact hmem this
    · apply step_body_ne_nil
      intro hb
      exact hne (by
        have := (player_power_step_frame _ _ _ _).2.1 hb
        rwa [player_food_step_body] at this)

theorem player_move_nodup (g : Game) (r : Rng)
    (hinv : g.player.invincible_ticks ≤ 0)
    (hnd : g.player.body.Nodup) (hne : g.player.body ≠ []) :
    (player_move g r).1.player.body.Nodup ∧
    (player_move g r).1.player.body ≠ [] := by
  unfold player_move
  dsimp only
  split_ifs with h1 h2
  · omega
  · exact ⟨hnd, hne⟩
  · exact player_move_core_nodup _ _ _ _ hinv hnd hne

theorem change_dir_shape (s : Snake) (d : Point) :
    ∃ d2, s.change_dir d = { s with direction := d2 } := by
  unfold Snake.change_dir
  split_ifs
  · exact ⟨s.direction, rfl⟩
  · exact ⟨d, rfl⟩

theorem game_change_dir_shape (g : Game) (d : Point) :
    ∃ d2, { g with ai_snake := g.ai_snake.change_dir d } =
      { g with ai_snake := { g.ai_snake with direction := d2 } } := by
  obtain ⟨d2, hd⟩ := change_dir_shape g.ai_snake d
  exact ⟨d2, by rw [hd]⟩

theorem aiChooseDir_shape (g : Game) (r : Rng) (f : Food) :
    ∃ d, (aiChooseDir g r f).1 =
      { g with ai_snake := { g.ai_snake with direction := d } } := by
  unfold aiChooseDir
  dsimp only
  split
  · split
    · exact game_change_dir_shape g _
    · split
      · exact game_change_dir_shape g _
      · exact ⟨g.ai_snake.direction, rfl⟩
  · split
    · exact game_change_dir_shape g _
    · exact ⟨g.ai_snake.direction, rfl⟩

theorem aiResolve_frame (g : Game) (r : Rng) :
    (aiResolve g r).1.player = g.player ∧
    (aiResolve g r).1.game_over = g.game_over ∧
    (aiResolve g r).1.ai_enabled = g.ai_enabled ∧
    (aiResolve g r).1.ai_snake.direction = g.ai_snake.direction ∧
    (aiResolve g r).1.ai_snake.move_tick_counter =
      g.ai_snake.move_tick_counter := by
  unfold aiResolve
  dsimp only
  split_ifs with h1 h2 h3 h4 h5
  · exact ⟨rfl, rfl, rfl, rfl, rfl⟩
  · exact ⟨rfl, rfl, rfl, rfl, rfl⟩
  · exact ⟨rfl, rfl, rfl, rfl, rfl⟩
  · exact ⟨rfl, rfl, rfl, rfl, rfl⟩
  · refine ⟨?_, ?_, ?_, ?_, ?_⟩
    · rw [(spawn_food_frame _ _).1]
    · rw [(spawn_food_frame _ _).2.2.1]
    · rw [(spawn_food_frame _ _).2.2.2]
    · rw [(step_fields _ _ _).2.1, (spawn_food_frame _ _).2.1]
    · rw [(step_fields _ _ _).2.2.2.1, (spawn_food_frame _ _).2.1]
  · exact ⟨rfl, rfl, rfl, (step_fields _ _ _).2.1,
      (step_fields _ _ _).2.2.2.1⟩

theorem aiResolve_cases (g : Game) (r : Rng) (hne : g.ai_snake.body ≠ []) :
    ((aiResolve g r).1.ai_snake.alive = false ∧
     (aiResolve g r).1.ai_snake.body = g.ai_snake.body) ∨
    ((aiResolve g r).1.ai_snake.alive = g.ai_snake.alive ∧
     (aiResolve g r).1.ai_snake.body.head? =
       some (wrapCell g (next_pos g.ai_snake.head g.ai_snake.direction))) := by
  unfold aiResolve
  dsimp only
  split_ifs with h1 h2 h3 h4 h5
  · exact Or.inl ⟨rfl, rfl⟩
  · exact Or.inl ⟨rfl, rfl⟩
  · exact Or.inl ⟨rfl, rfl⟩
  · exact Or.inl ⟨rfl, rfl⟩
  · refine Or.inr ⟨?_, ?_⟩
    · rw [(step_fields _ _ _).1, (spawn_food_frame _ _).2.1]
    · apply step_head
      rw [(spawn_food_frame _ _).2.1]
      exact hne
  · exact Or.inr ⟨(step_fields _ _ _).1, step_head _ _ _ hne⟩

theorem aiResolve_oob (g : Game) (r : Rng) (hw : ¬g.wrap)
    (h : oob g.grid_w g.grid_h
      (next_pos g.ai_snake.head g.ai_snake.direction)) :
    (aiResolve g r).1.ai_snake.alive = false ∧
    (aiResolve g r).1.ai_snake.body = g.ai_snake.body ∧
    (aiResolve g r).1.ai_snake.invincible_ticks =
      g.ai_snake.invincible_ticks := by
  unfold aiResolve
  dsimp only
  rw [if_pos ⟨hw, h⟩]
  exact ⟨rfl, rfl, rfl⟩

theorem aiResolve_hits_player (g : Game) (r : Rng)
    (hinv : g.ai_snake.invincible_ticks ≤ 0)
    (hmem : wrapCell g (next_pos g.ai_snake.head g.ai_snake.direction) ∈
      g.player.body) :
    (aiResolve g r).1.ai_snake.alive = false ∧
    (aiResolve g r).1.ai_snake.body = g.ai_snake.body := by
  unfold aiResolve
  dsimp only
  split_ifs with h1 h2 h3 h4
  · exact ⟨rfl, rfl⟩
  · exact ⟨rfl, rfl⟩
  · exact ⟨rfl, rfl⟩
  · exact ⟨rfl, rfl⟩
  all_goals exact absurd ⟨by simpa [Snake.collides] using hmem, hinv⟩ h4

theorem aiResolve_nodup (g : Game) (r : Rng)
    (hinv : g.ai_snake.invincible_ticks ≤ 0)
    (hnd : g.ai_snake.body.Nodup) (hne : g.ai_snake.body ≠ []) :
    (aiResolve g r).1.ai_snake.body.Nodup ∧
    (aiResolve g r).1.ai_snake.body ≠ [] := by
  unfold aiResolve
  dsimp only
  split_ifs with h1 h2 h3 h4 h5
  · exact ⟨hnd, hne⟩
  · exact ⟨hnd, hne⟩
  · exact ⟨hnd, hne⟩
  · exact ⟨hnd, hne⟩
  all_goals {
    have hmem : wrapCell g (next_pos g.ai_snake.head g.ai_snake.direction) ∉
        g.ai_snake.body := by
      intro hm
      exact h3 ⟨by simpa [Snake.collides] using hm, hinv⟩
    constructor
    · apply step_nodup
      · first
        | (rw [(spawn_food_frame _ _).2.1]; exact hnd)
        | exact hnd
      · first
        | (rw [(spawn_food_frame _ _).2.1]; exact hmem)
        | exact hmem
    · apply step_body_ne_nil
      first
      | (rw [(spawn_food_frame _ _).2.1]; exact hne)
      | exact hne }

theorem ai_move_frame (g : Game) (r : Rng) :
    (ai_move g r).1.player = g.player ∧
    (ai_move g r).1.game_over = g.game_over ∧
    (ai_move g r).1.ai_enabled = g.ai_enabled ∧
    (ai_move g r).1.ai_snake.move_tick_counter =
      g.ai_snake.move_tick_counter := by
  unfold ai_move
  dsimp only
  split
  · exact ⟨rfl, rfl, rfl, rfl⟩
  · rename_i f heq
    obtain ⟨d, hd⟩ := aiChooseDir_shape g r f
    rw [hd]
    exact ⟨(aiResolve_frame _ _).1, (aiResolve_frame _ _).2.1,
      (aiResolve_frame _ _).2.2.1, (aiResolve_frame _ _).2.2.2.2⟩

theorem ai_move_nodup (g : Game) (r : Rng)
    (hinv : g.ai_snake.invincible_ticks ≤ 0)
    (hnd : g.ai_snake.body.Nodup) (hne : g.ai_snake.body ≠ []) :
    (ai_move g r).1.ai_snake.body.Nodup ∧
    (ai_move g r).1.ai_snake.body ≠ [] := by
  unfold ai_move
  dsimp only
  split
  · exact ⟨hnd, hne⟩
  · rename_i f heq
    obtain ⟨d, hd⟩ := aiChooseDir_shape g r f
    rw [hd]
    exact aiResolve_nodup _ _ hinv hnd hne

theorem tickPlayerPhase_frame (g : Game) (r : Rng) :
    (tickPlayerPhase g r).1.ai_snake = g.ai_snake ∧
    (tickPlayerPhase g r).1.ai_enabled = g.ai_enabled := by
  unfold tickPlayerPhase
  dsimp only
  split_ifs
  · exact ⟨(player_move_frame _ _).1, (player_move_frame _ _).2.1⟩
  · exact ⟨rfl, rfl⟩

theorem decInv_fields (s : Snake) :
    (decInv s).body = s.body ∧ (decInv s).alive = s.alive ∧
    (decInv s).move_tick_counter = s.move_tick_counter ∧
    (decInv s).direction = s.direction := by
  unfold decInv
  split_ifs <;> exact ⟨rfl, rfl, rfl, rfl⟩

theorem tickDecay_fields (g : Game) :
    (tickDecay g).player = decInv g.player ∧
    (tickDecay g).ai_snake = decInv g.ai_snake := ⟨rfl, rfl⟩

theorem tickPlayerPhase_player_nodup (g : Game) (r : Rng)
    (hpi : g.player.invincible_ticks ≤ 0)
    (hnd : g.player.body.Nodup) (hne : g.player.body ≠ []) :
    (tickPlayerPhase g r).1.player.body.Nodup ∧
    (tickPlayerPhase g r).1.player.body ≠ [] := by
  unfold tickPlayerPhase
  dsimp only
  split_ifs
  · exact player_move_nodup _ _ hpi hnd hne
  · exact ⟨hnd, hne⟩

theorem tickAiPhase_player (g : Game) (r : Rng) (d : Int) :
    (tickAiPhase g r d).1.player = g.player := by
  unfold tickAiPhase
  dsimp only
  split_ifs
  · exact (ai_move_frame _ _).1
  · rfl
  · rfl

theorem tickAiPhase_ai_nodup (g : Game) (r : Rng) (d : Int)
    (hai : g.ai_snake.invincible_ticks ≤ 0)
    (hnd : g.ai_snake.body.Nodup) (hne : g.ai_snake.body ≠ []) :
    (tickAiPhase g r d).1.ai_snake.body.Nodup ∧
    (tickAiPhase g r d).1.ai_snake.body ≠ [] := by
  unfold tickAiPhase
  dsimp only
  split_ifs
  · exact ai_move_nodup _ _ hai hnd hne
  · exact ⟨hnd, hne⟩
  · exact ⟨hnd, hne⟩

/-! ## Claim C5 — amended boundary semantics -/

/-- C5 (amended): in non-wrap mode an out-of-bounds candidate cell kills a
non-invincible player (ending the round) while an invincible player is
clamped back into bounds and continues; the AI has no invincibility
exemption: its move resolution kills it on any out-of-bounds candidate
regardless of its `invincible_ticks`. -/
theorem C5_boundary (g : Game) (r : Rng) (hw : ¬g.wrap)
    (hoob : oob g.grid_w g.grid_h (next_pos g.player.head g.player.direction))
    (hne : g.player.body ≠ []) :
    (0 < g.player.invincible_ticks →
      (player_move g r).1.player.alive = g.player.alive ∧
      (player_move g r).1.game_over = g.game_over ∧
      (player_move g r).1.player.body.head? =
        some (clamp (next_pos g.player.head g.player.direction).1 0
                (g.grid_w - 1) % g.grid_w,
              clamp (next_pos g.player.head g.player.direction).2 0
                (g.grid_h - 1) % g.grid_h)) ∧
    (g.player.invincible_ticks ≤ 0 →
      (player_move g r).1.player.alive = false ∧
      (player_move g r).1.game_over = true ∧
      (player_move g r).1.player.body = g.player.body) ∧
    (∀ (h : Game) (r2 : Rng), ¬h.wrap →
      oob h.grid_w h.grid_h (next_pos h.ai_snake.head h.ai_snake.direction) →
      (aiResolve h r2).1.ai_snake.alive = false ∧
      (aiResolve h r2).1.ai_snake.body = h.ai_snake.body) := by
  refine ⟨?_, ?_, fun h r2 hw2 ho2 =>
    ⟨(aiResolve_oob h r2 hw2 ho2).1, (aiResolve_oob h r2 hw2 ho2).2.1⟩⟩
  · intro hinv
    unfold player_move
    dsimp only
    rw [if_pos ⟨hw, hoob⟩, if_pos hinv]
    exact player_move_core_invincible _ _ _ _ hinv hne
  · intro hinv
    unfold player_move
    dsimp only
    rw [if_pos ⟨hw, hoob⟩, if_neg (by omega)]
    exact ⟨rfl, rfl, rfl⟩

/-- C5 witness: `gC6`'s invincible player (heading out of the right wall)
stays alive, the round keeps running, and its new head is the clamped cell
`(7, 0)`; the AI clause is instantiated by `gC5`. -/
theorem C5_boundary_witness :
    ((0 < gC6.player.invincible_ticks →
      (player_move gC6 rng0).1.player.alive = gC6.player.alive ∧
      (player_move gC6 rng0).1.game_over = gC6.game_over ∧
      (player_move gC6 rng0).1.player.body.head? =
        some (clamp (next_pos gC6.player.head gC6.player.direction).1 0
                (gC6.grid_w - 1) % gC6.grid_w,
              clamp (next_pos gC6.player.head gC6.player.direction).2 0
                (gC6.grid_h - 1) % gC6.grid_h)) ∧
    (gC6.player.invincible_ticks ≤ 0 →
      (player_move gC6 rng0).1.player.alive = false ∧
      (player_move gC6 rng0).1.game_over = true ∧
      (player_move gC6 rng0).1.player.body = gC6.player.body) ∧
    (∀ (h : Game) (r2 : Rng), ¬h.wrap →
      oob h.grid_w h.grid_h (next_pos h.ai_snake.head h.ai_snake.direction) →
      (aiResolve h r2).1.ai_snake.alive = false ∧
      (aiResolve h r2).1.ai_snake.body = h.ai_snake.body)) :=
  C5_boundary gC6 rng0 (by decide) (by decide) (by decide)

/-! ## Claim C6 — amended no-duplicate invariant -/

/-- C6 (amended): for agents whose `invincible_ticks` is not positive, the
move resolutions and `tick` preserve "body has no duplicate cells and is
nonempty" (head is `body[0]` by representation); while invincible the
invariant can be violated, as the counterexample shows. -/
theorem C6_nodup_preserved (g : Game) (r : Rng)
    (hpi : g.player.invincible_ticks ≤ 0)
    (hai : g.ai_snake.invincible_ticks ≤ 0)
    (hpn : g.player.body.Nodup) (hpe : g.player.body ≠ [])
    (han : g.ai_snake.body.Nodup) (hae : g.ai_snake.body ≠ []) :
    ((player_move g r).1.player.body.Nodup ∧
      (player_move g r).1.player.body ≠ []) ∧
    ((ai_move g r).1.ai_snake.body.Nodup ∧
      (ai_move g r).1.ai_snake.body ≠ []) ∧
    ((tick g r).1.player.body.Nodup ∧ (tick g r).1.player.body ≠ [] ∧
      (tick g r).1.ai_snake.body.Nodup ∧ (tick g r).1.ai_snake.body ≠ []) := by
  refine ⟨player_move_nodup g r hpi hpn hpe, ai_move_nodup g r hai han hae, ?_⟩
  unfold tick
  dsimp only
  split_ifs with hpo
  · exact ⟨hpn, hpe, han, hae⟩
  · have hp1 := tickPlayerPhase_player_nodup g r hpi hpn hpe
    have haifr := (tickPlayerPhase_frame g r).1
    have hp2 : (tickAiPhase (tickPlayerPhase g r).1 (tickPlayerPhase g r).2
        (moveDelay g.move_delay g.ai_snake.speed_modifier)).1.player =
        (tickPlayerPhase g r).1.player := tickAiPhase_player _ _ _
    have ha2 := tickAiPhase_ai_nodup (tickPlayerPhase g r).1 (tickPlayerPhase g r).2
      (moveDelay g.move_delay g.ai_snake.speed_modifier)
      (by rw [haifr]; exact hai) (by rw [haifr]; exact han) (by rw [haifr]; exact hae)
    rw [(tickDecay_fields _).1, (tickDecay_fields _).2, (decInv_fields _).1,
      (decInv_fields _).1, hp2]
    exact ⟨hp1.1, hp1.2, ha2.1, ha2.2⟩

/-- C6 witness: a bounded round with both agents non-invincible, nodup,
nonempty. -/
theorem C6_nodup_preserved_witness :
    ((player_move gC7 rng0).1.player.body.Nodup ∧
      (player_move gC7 rng0).1.player.body ≠ []) ∧
    ((ai_move gC7 rng0).1.ai_snake.body.Nodup ∧
      (ai_move gC7 rng0).1.ai_snake.body ≠ []) ∧
    ((tick gC7 rng0).1.player.body.Nodup ∧ (tick gC7 rng0).1.player.body ≠ [] ∧
      (tick gC7 rng0).1.ai_snake.body.Nodup ∧
      (tick gC7 rng0).1.ai_snake.body ≠ []) :=
  C6_nodup_preserved gC7 rng0 (by decide) (by decide) (by decide) (by decide)
    (by decide) (by decide)

theorem tickPlayerPhase_fired (g : Game) (r : Rng)
    (h : moveDelay g.move_delay g.player.speed_modifier ≤
      g.player.move_tick_counter + 1) :
    tickPlayerPhase g r = player_move
      { g with ticks := g.ticks + 1,
               player := { g.player with move_tick_counter := 0 } } r := by
  unfold tickPlayerPhase
  dsimp only
  rw [if_pos h]

theorem tickPlayerPhase_notfired (g : Game) (r : Rng)
    (h : ¬(moveDelay g.move_delay g.player.speed_modifier ≤
      g.player.move_tick_counter + 1)) :
    tickPlayerPhase g r =
      ({ g with ticks := g.ticks + 1,
                player := { g.player with
                  move_tick_counter := g.player.move_tick_counter + 1 } }, r) := by
  unfold tickPlayerPhase
  dsimp only
  rw [if_neg h]

theorem tickPlayerPhase_counter (g : Game) (r : Rng) :
    (tickPlayerPhase g r).1.player.move_tick_counter =
      if moveDelay g.move_delay g.player.speed_modifier ≤
          g.player.move_tick_counter + 1 then 0
      else g.player.move_tick_counter + 1 := by
  by_cases h : moveDelay g.move_delay g.player.speed_modifier ≤
      g.player.move_tick_counter + 1
  · rw [tickPlayerPhase_fired g r h, if_pos h, (player_move_frame _ _).2.2]
  · rw [tickPlayerPhase_notfired g r h, if_neg h]

theorem tickAiPhase_fired (g : Game) (r : Rng) (d : Int)
    (hen : g.ai_enabled = true)
    (h : d ≤ g.ai_snake.move_tick_counter + 1) :
    tickAiPhase g r d = ai_move
      { g with ai_snake := { g.ai_snake with move_tick_counter := 0 } } r := by
  unfold tickAiPhase
  dsimp only
  rw [if_pos hen, if_pos h]

theorem tickAiPhase_notfired (g : Game) (r : Rng) (d : Int)
    (hen : g.ai_enabled = true)
    (h : ¬(d ≤ g.ai_snake.move_tick_counter + 1)) :
    tickAiPhase g r d =
      ({ g with ai_snake := { g.ai_snake with
          move_tick_counter := g.ai_snake.move_tick_counter + 1 } }, r) := by
  unfold tickAiPhase
  dsimp only
  rw [if_pos hen, if_neg h]

theorem tickAiPhase_counter (g : Game) (r : Rng) (d : Int)
    (hen : g.ai_enabled = true) :
    (tickAiPhase g r d).1.ai_snake.move_tick_counter =
      if d ≤ g.ai_snake.move_tick_counter + 1 then 0
      else g.ai_snake.move_tick_counter + 1 := by
  by_cases h : d ≤ g.ai_snake.move_tick_counter + 1
  · rw [tickAiPhase_fired g r d hen h, if_pos h, (ai_move_frame _ _).2.2.2]
  · rw [tickAiPhase_notfired g r d hen h, if_neg h]

theorem tick_shape (g : Game) (r : Rng) (hp : ¬g.paused) (ho : ¬g.game_over) :
    tick g r = (tickDecay (tickAiPhase (tickPlayerPhase g r).1
        (tickPlayerPhase g r).2
        (moveDelay g.move_delay g.ai_snake.speed_modifier)).1,
      (tickAiPhase (tickPlayerPhase g r).1 (tickPlayerPhase g r).2
        (moveDelay g.move_delay g.ai_snake.speed_modifier)).2) := by
  unfold tick
  dsimp only
  rw [if_neg (by simp [hp, ho])]

/-! ## Claim C4 — amended cadence semantics (truncating threshold) -/

/-- C4 (amended): per agent and per tick, the move resolution executes
exactly when the incremented cadence counter reaches
`max(1, int(base_move_delay × speed_modifier))` — truncation, not rounding —
and the counter is then reset to zero (the decays still run afterwards:
`decInv` is the per-tick invincibility countdown). -/
theorem C4_cadence (g : Game) (r : Rng) (hp : ¬g.paused) (ho : ¬g.game_over) :
    ((tick g r).1.player.move_tick_counter =
      if moveDelay g.move_delay g.player.speed_modifier ≤
          g.player.move_tick_counter + 1 then 0
      else g.player.move_tick_counter + 1) ∧
    (moveDelay g.move_delay g.player.speed_modifier ≤
        g.player.move_tick_counter + 1 →
      (tick g r).1.player = decInv ((player_move
        { g with ticks := g.ticks + 1,
                 player := { g.player with move_tick_counter := 0 } }
        r).1.player)) ∧
    (¬(moveDelay g.move_delay g.player.speed_modifier ≤
        g.player.move_tick_counter + 1) →
      (tick g r).1.player =
        decInv { g.player with
          move_tick_counter := g.player.move_tick_counter + 1 }) ∧
    (g.ai_enabled = true →
      (tick g r).1.ai_snake.move_tick_counter =
        if moveDelay g.move_delay g.ai_snake.speed_modifier ≤
            g.ai_snake.move_tick_counter + 1 then 0
        else g.ai_snake.move_tick_counter + 1) ∧
    (g.ai_enabled = true →
      moveDelay g.move_delay g.ai_snake.speed_modifier ≤
        g.ai_snake.move_tick_counter + 1 →
      (tick g r).1.ai_snake = decInv ((ai_move
        { (tickPlayerPhase g r).1 with ai_snake :=
            { (tickPlayerPhase g r).1.ai_snake with move_tick_counter := 0 } }
        (tickPlayerPhase g r).2).1.ai_snake)) ∧
    (g.ai_enabled = true →
      ¬(moveDelay g.move_delay g.ai_snake.speed_modifier ≤
        g.ai_snake.move_tick_counter + 1) →
      (tick g r).1.ai_snake =
        decInv { g.ai_snake with
          move_tick_counter := g.ai_snake.move_tick_counter + 1 }) := by
  have ht := tick_shape g r hp ho
  have haifr := tickPlayerPhase_frame g r
  refine ⟨?_, ?_, ?_, ?_, ?_, ?_⟩
  · rw [ht]
    show (decInv (tickAiPhase _ _ _).1.player).move_tick_counter = _
    rw [(decInv_fields _).2.2.1, tickAiPhase_player, tickPlayerPhase_counter]
  · intro h
    rw [ht]
    show decInv (tickAiPhase _ _ _).1.player = _
    rw [tickAiPhase_player, tickPlayerPhase_fired g r h]
  · intro h
    rw [ht]
    show decInv (tickAiPhase _ _ _).1.player = _
    rw [tickAiPhase_player, tickPlayerPhase_notfired g r h]
  · intro hen
    rw [ht]
    show (decInv (tickAiPhase _ _ _).1.ai_snake).move_tick_counter = _
    rw [(decInv_fields _).2.2.1,
      tickAiPhase_counter _ _ _ (by rw [haifr.2]; exact hen), haifr.1]
  · intro hen hfa
    rw [ht]
    show decInv (tickAiPhase _ _ _).1.ai_snake = _
    rw [tickAiPhase_fired _ _ _ (by rw [haifr.2]; exact hen)
      (by rw [haifr.1]; exact hfa)]
  · intro hen hfa
    rw [ht]
    show decInv (tickAiPhase _ _ _).1.ai_snake = _
    rw [tickAiPhase_notfired _ _ _ (by rw [haifr.2]; exact hen)
      (by rw [haifr.1]; exact hfa)]
    show decInv { (tickPlayerPhase g r).1.ai_snake with
      move_tick_counter := (tickPlayerPhase g r).1.ai_snake.move_tick_counter + 1 } = _
    rw [haifr.1]

/-- C4 witness: `gC4` is a running round (AI disabled clauses hold
vacuously or by the if-characterization). -/
theorem C4_cadence_witness :
    ((tick gC4 rng0).1.player.move_tick_counter =
      if moveDelay gC4.move_delay gC4.player.speed_modifier ≤
          gC4.player.move_tick_counter + 1 then 0
      else gC4.player.move_tick_counter + 1) ∧
    (moveDelay gC4.move_delay gC4.player.speed_modifier ≤
        gC4.player.move_tick_counter + 1 →
      (tick gC4 rng0).1.player = decInv ((player_move
        { gC4 with ticks := gC4.ticks + 1,
                   player := { gC4.player with move_tick_counter := 0 } }
        rng0).1.player)) ∧
    (¬(moveDelay gC4.move_delay gC4.player.speed_modifier ≤
        gC4.player.move_tick_counter + 1) →
      (tick gC4 rng0).1.player =
        decInv { gC4.player with
          move_tick_counter := gC4.player.move_tick_counter + 1 }) ∧
    (gC4.ai_enabled = true →
      (tick gC4 rng0).1.ai_snake.move_tick_counter =
        if moveDelay gC4.move_delay gC4.ai_snake.speed_modifier ≤
            gC4.ai_snake.move_tick_counter + 1 then 0
        else gC4.ai_snake.move_tick_counter + 1) ∧
    (gC4.ai_enabled = true →
      moveDelay gC4.move_delay gC4.ai_snake.speed_modifier ≤
        gC4.ai_snake.move_tick_counter + 1 →
      (tick gC4 rng0).1.ai_snake = decInv ((ai_move
        { (tickPlayerPhase gC4 rng0).1 with ai_snake :=
            { (tickPlayerPhase gC4 rng0).1.ai_snake with move_tick_counter := 0 } }
        (tickPlayerPhase gC4 rng0).2).1.ai_snake)) ∧
    (gC4.ai_enabled = true →
      ¬(moveDelay gC4.move_delay gC4.ai_snake.speed_modifier ≤
        gC4.ai_snake.move_tick_counter + 1) →
      (tick gC4 rng0).1.ai_snake =
        decInv { gC4.ai_snake with
          move_tick_counter := gC4.ai_snake.move_tick_counter + 1 }) :=
  C4_cadence gC4 rng0 (by decide) (by decide)

/-! ## Claim C7 — player resolves before the AI; the AI sees the updated body -/

/-- C7: within a tick in which both agents' cadence counters fire, the player
move resolves first and the AI move runs on the player-updated state (with
only the AI cadence counter reset in between); and whenever the AI's stepped
cell lies in the (current, i.e. already-updated) player body and the AI is
not invincible, the AI dies with its body unchanged — the contested cell
belongs to the player, never a tie. -/
theorem C7_order (g : Game) (r : Rng) (hp : ¬g.paused) (ho : ¬g.game_over)
    (hen : g.ai_enabled = true)
    (hrp : moveDelay g.move_delay g.player.speed_modifier ≤
      g.player.move_tick_counter + 1)
    (hra : moveDelay g.move_delay g.ai_snake.speed_modifier ≤
      g.ai_snake.move_tick_counter + 1) :
    (tick g r =
      (let pr := player_move
        { g with ticks := g.ticks + 1,
                 player := { g.player with move_tick_counter := 0 } } r
       let ar := ai_move
        { pr.1 with ai_snake :=
            { pr.1.ai_snake with move_tick_counter := 0 } } pr.2
       (tickDecay ar.1, ar.2))) ∧
    (∀ (h : Game) (r2 : Rng), h.ai_snake.invincible_ticks ≤ 0 →
      wrapCell h (next_pos h.ai_snake.head h.ai_snake.direction) ∈
        h.player.body →
      (aiResolve h r2).1.ai_snake.alive = false ∧
      (aiResolve h r2).1.ai_snake.body = h.ai_snake.body) := by
  constructor
  · have h1 := tickPlayerPhase_fired g r hrp
    have hfr := tickPlayerPhase_frame g r
    have h2 := tickAiPhase_fired (tickPlayerPhase g r).1 (tickPlayerPhase g r).2
      (moveDelay g.move_delay g.ai_snake.speed_modifier)
      (by rw [hfr.2]; exact hen) (by rw [hfr.1]; exact hra)
    rw [tick_shape g r hp ho, h2, h1]
  · exact fun h r2 hi hm => aiResolve_hits_player h r2 hi hm

/-- C7 witness: in `gC7` both counters fire, the player takes `(4, 3)` and
the non-invincible AI, whose fallback steps onto the same cell, dies. -/
theorem C7_order_witness :
    ((tick gC7 rng0 =
      (let pr := player_move
        { gC7 with ticks := gC7.ticks + 1,
                   player := { gC7.player with move_tick_counter := 0 } } rng0
       let ar := ai_move
        { pr.1 with ai_snake :=
            { pr.1.ai_snake with move_tick_counter := 0 } } pr.2
       (tickDecay ar.1, ar.2))) ∧
    (∀ (h : Game) (r2 : Rng), h.ai_snake.invincible_ticks ≤ 0 →
      wrapCell h (next_pos h.ai_snake.head h.ai_snake.direction) ∈
        h.player.body →
      (aiResolve h r2).1.ai_snake.alive = false ∧
      (aiResolve h r2).1.ai_snake.body = h.ai_snake.body)) ∧
    (4, 3) ∈ (tick gC7 rng0).1.player.body ∧
    (tick gC7 rng0).1.ai_snake.alive = false :=
  ⟨C7_order gC7 rng0 (by decide) (by decide) (by decide) (by decide)
      (by decide),
    by decide, by decide⟩

theorem change_dir_direction (s : Snake) (d : Point) :
    (s.change_dir d).direction = s.direction ∨ (s.change_dir d).direction = d := by
  unfold Snake.change_dir
  split_ifs
  · exact Or.inl rfl
  · exact Or.inr rfl

theorem aiChooseDir_fallback (g : Game) (r : Rng) (f : Food)
    (hpath : astar g.ai_snake.head f.pos g.grid_w g.grid_h (aiBlocked g)
        g.wrap = none ∨
      ∃ p, astar g.ai_snake.head f.pos g.grid_w g.grid_h (aiBlocked g)
          g.wrap = some p ∧ ¬p.length > 1) :
    (aiChooseDir g r f).1 = g ∨
    ∃ c, aiFallbackOk g c = true ∧
      (aiChooseDir g r f).1 = { g with ai_snake := g.ai_snake.change_dir c } := by
  unfold aiChooseDir
  dsimp only
  rcases hpath with hnone | ⟨p, hsome, hlen⟩
  · rw [hnone]
    dsimp only
    split
    · rename_i c hc
      exact Or.inr ⟨c, List.find?_some hc, rfl⟩
    · exact Or.inl rfl
  · rw [hsome]
    dsimp only
    rw [if_neg hlen]
    split
    · rename_i c hc
      exact Or.inr ⟨c, List.find?_some hc, rfl⟩
    · exact Or.inl rfl

/-! ## Claim C3 — amended fallback semantics -/

/-- C3 (amended): when food exists but the pathfinder returns no path (or a
trivial one-cell path), the AI falls back to the shuffled local search — its
resulting direction is either a qualifying fallback direction or left
unchanged — and the boundary/collision/move resolution still runs: the AI
either dies with its body unchanged or advances its head to the stepped
cell.  When no food exists, however, `ai_move` returns immediately with no
effect at all (the claim's "never simply skipped" fails there). -/
theorem C3_fallback (g : Game) (r : Rng) (f : Food)
    (hf : g.food = some f) (hne : g.ai_snake.body ≠ [])
    (hpath : astar g.ai_snake.head f.pos g.grid_w g.grid_h (aiBlocked g)
        g.wrap = none ∨
      ∃ p, astar g.ai_snake.head f.pos g.grid_w g.grid_h (aiBlocked g)
          g.wrap = some p ∧ ¬p.length > 1) :
    ((ai_move g r).1.ai_snake.direction = g.ai_snake.direction ∨
      aiFallbackOk g ((ai_move g r).1.ai_snake.direction) = true) ∧
    (((ai_move g r).1.ai_snake.alive = false ∧
      (ai_move g r).1.ai_snake.body = g.ai_snake.body) ∨
     ((ai_move g r).1.ai_snake.alive = g.ai_snake.alive ∧
      (ai_move g r).1.ai_snake.body.head? = some (wrapCell g
        (next_pos g.ai_snake.head ((ai_move g r).1.ai_snake.direction))))) ∧
    (∀ (g2 : Game) (r2 : Rng), g2.food = none → ai_move g2 r2 = (g2, r2)) := by
  have hmv : ai_move g r =
      aiResolve (aiChooseDir g r f).1 (aiChooseDir g r f).2 := by
    unfold ai_move
    rw [hf]
  obtain ⟨d, hd⟩ := aiChooseDir_shape g r f
  have hdir : (ai_move g r).1.ai_snake.direction = d := by
    rw [hmv, hd, (aiResolve_frame _ _).2.2.2.1]
  refine ⟨?_, ?_, fun g2 r2 h2 => by unfold ai_move; rw [h2]⟩
  · rcases aiChooseDir_fallback g r f hpath with hid | ⟨c, hok, hc⟩
    · left
      rw [hmv, hid, (aiResolve_frame _ _).2.2.2.1]
    · have hd2 : (ai_move g r).1.ai_snake.direction =
          (g.ai_snake.change_dir c).direction := by
        rw [hmv, hc, (aiResolve_frame _ _).2.2.2.1]
      rcases change_dir_direction g.ai_snake c with h | h
      · left
        rw [hd2, h]
      · right
        rw [hd2, h]
        exact hok
  · have hcas := aiResolve_cases
      { g with ai_snake := { g.ai_snake with direction := d } }
      (aiChooseDir g r f).2 hne
    rw [hdir]
    rcases hcas with ⟨ha, hb⟩ | ⟨ha, hh⟩
    · left
      rw [hmv, hd]
      exact ⟨ha, hb⟩
    · right
      rw [hmv, hd]
      exact ⟨ha, hh⟩

/-- C3 witness: `gC5` has food, an enclosed AI whose pathfinder fails, and a
nonempty body. -/
theorem C3_fallback_witness :
    ((ai_move gC5 rng0).1.ai_snake.direction = gC5.ai_snake.direction ∨
      aiFallbackOk gC5 ((ai_move gC5 rng0).1.ai_snake.direction) = true) ∧
    (((ai_move gC5 rng0).1.ai_snake.alive = false ∧
      (ai_move gC5 rng0).1.ai_snake.body = gC5.ai_snake.body) ∨
     ((ai_move gC5 rng0).1.ai_snake.alive = gC5.ai_snake.alive ∧
      (ai_move gC5 rng0).1.ai_snake.body.head? = some (wrapCell gC5
        (next_pos gC5.ai_snake.head
          ((ai_move gC5 rng0).1.ai_snake.direction))))) ∧
    (∀ (g2 : Game) (r2 : Rng), g2.food = none → ai_move g2 r2 = (g2, r2)) :=
  C3_fallback gC5 rng0 { pos := (4, 4) } (by decide) (by decide)
    (Or.inl (by decide))

/-! ## The A* theory: soundness, admissibility, completeness, optimality -/

/-! ## popMin pops a minimal entry -/

theorem keyLe_total (a b : Entry) : keyLe a b = true ∨ keyLe b a = true := by
  simp only [keyLe, decide_eq_true_eq]
  omega

theorem keyLe_trans {a b c : Entry} (h1 : keyLe a b = true)
    (h2 : keyLe b c = true) : keyLe a c = true := by
  simp only [keyLe, decide_eq_true_eq] at h1 h2 ⊢
  omega

theorem keyLe_f {a b : Entry} (h : keyLe a b = true) : a.f ≤ b.f := by
  simp only [keyLe, decide_eq_true_eq] at h
  omega

theorem keyLe_refl (a : Entry) : keyLe a a = true := by
  simp [keyLe]

theorem popMin_none {l : List Entry} : popMin l = none ↔ l = [] := by
  cases l with
  | nil => simp [popMin]
  | cons e es =>
    simp only [popMin]
    constructor
    · intro h
      exfalso
      revert h
      cases hm : popMin es
      · simp
      · rename_i p
        cases p
        dsimp only
        split <;> simp
    · intro h
      exact absurd h (by simp)

theorem popMin_perm {l : List Entry} {e : Entry} {rest : List Entry}
    (h : popMin l = some (e, rest)) : l.Perm (e :: rest) := by
  induction l generalizing e rest with
  | nil => simp [popMin] at h
  | cons a as ih =>
    simp only [popMin] at h
    cases hm : popMin as with
    | none =>
      rw [hm] at h
      have : as = [] := popMin_none.1 hm
      subst this
      simp only [Option.some.injEq, Prod.mk.injEq] at h
      rw [← h.1, ← h.2]
    | some p =>
      obtain ⟨m, rest'⟩ := p
      rw [hm] at h
      dsimp only at h
      have hperm := ih hm
      split at h
      · simp only [Option.some.injEq, Prod.mk.injEq] at h
        rw [← h.1, ← h.2]
      · simp only [Option.some.injEq, Prod.mk.injEq] at h
        exact (hperm.cons a).trans ((List.Perm.swap m a rest').trans
          (by rw [h.1, h.2]))

theorem popMin_mem {l : List Entry} {e : Entry} {rest : List Entry}
    (h : popMin l = some (e, rest)) : e ∈ l :=
  (popMin_perm h).symm.subset (List.mem_cons_self e rest)

theorem popMin_mem_rest {l : List Entry} {e : Entry} {rest : List Entry}
    (h : popMin l = some (e, rest)) {x : Entry} (hx : x ∈ l) (hne : x ≠ e) :
    x ∈ rest := by
  have := (popMin_perm h).subset hx
  simp only [List.mem_cons] at this
  exact this.resolve_left hne

theorem popMin_rest_mem {l : List Entry} {e : Entry} {rest : List Entry}
    (h : popMin l = some (e, rest)) {x : Entry} (hx : x ∈ rest) : x ∈ l :=
  (popMin_perm h).symm.subset (List.mem_cons_of_mem e hx)

theorem popMin_min {l : List Entry} {e : Entry} {rest : List Entry}
    (h : popMin l = some (e, rest)) : ∀ x ∈ l, keyLe e x = true := by
  induction l generalizing e rest with
  | nil => simp [popMin] at h
  | cons a as ih =>
    simp only [popMin] at h
    cases hm : popMin as with
    | none =>
      rw [hm] at h
      have : as = [] := popMin_none.1 hm
      subst this
      simp only [Option.some.injEq, Prod.mk.injEq] at h
      intro x hx
      simp only [List.mem_singleton] at hx
      subst hx
      rw [← h.1]
      exact keyLe_refl x
    | some p =>
      obtain ⟨m, rest'⟩ := p
      rw [hm] at h
      dsimp only at h
      split at h
      · rename_i hle
        simp only [Option.some.injEq, Prod.mk.injEq] at h
        intro x hx
        rw [← h.1]
        rcases List.mem_cons.1 hx with hx | hx
        · subst hx
          exact keyLe_refl x
        · exact keyLe_trans hle (ih hm x hx)
      · rename_i hle
        simp only [Option.some.injEq, Prod.mk.injEq] at h
        intro x hx
        rw [← h.1]
        rcases List.mem_cons.1 hx with hx | hx
        · subst hx
          rcases keyLe_total m x with hk | hk
          · exact hk
          · exact absurd hk hle
        · exact ih hm x hx

/-! ## gLookup facts -/

theorem gLookup_cons (n : Point) (t : Nat) (gs : List (Point × Nat))
    (p : Point) :
    gLookup ((n, t) :: gs) p = if p = n then t else gLookup gs p := by
  unfold gLookup
  by_cases hp : p = n
  · subst hp
    simp [List.lookup]
  · have hb : (p == n) = false := beq_eq_false_iff_ne.2 hp
    rw [List.lookup, hb, if_neg hp]

theorem gLookup_bound (gs : List (Point × Nat))
    (h : ∀ pv ∈ gs, pv.2 ≤ 999999999) (p : Point) :
    gLookup gs p = 1000000000 ∨ gLookup gs p ≤ 999999999 := by
  induction gs with
  | nil => exact Or.inl rfl
  | cons pv gs ih =>
    obtain ⟨n, t⟩ := pv
    rw [gLookup_cons]
    split_ifs
    · exact Or.inr (h (n, t) (List.mem_cons_self _ _))
    · exact ih fun x hx => h x (List.mem_cons_of_mem _ hx)

/-! ## The expansion loop: a full characterization -/

theorem expand_spec (goal : Point) (W H : Int) (blocked : List Point)
    (wrap : Bool) (g : Nat) (cur : Point) :
    ∀ (ns : List Point) (o : List Entry) (gs : List (Point × Nat)),
    (∀ pv ∈ gs, pv.2 ≤ 999999999) →
    ((∀ x ∈ o, x ∈ (expand goal W H blocked wrap g cur ns (o, gs)).1) ∧
     (∀ x ∈ (expand goal W H blocked wrap g cur ns (o, gs)).1, x ∈ o ∨
       (x.par = some cur ∧ x.g = g + 1 ∧ x.f = g + 1 + heuristic x.p goal ∧
        x.p ∈ ns ∧ ¬(¬wrap ∧ oob W H x.p) ∧ passableCell blocked goal x.p ∧
        x.g ≤ 999999999)) ∧
     (∀ pv ∈ (expand goal W H blocked wrap g cur ns (o, gs)).2,
        pv.2 ≤ 999999999) ∧
     (∀ p, gLookup (expand goal W H blocked wrap g cur ns (o, gs)).2 p ≤
        gLookup gs p) ∧
     (∀ n ∈ ns, ¬(¬wrap ∧ oob W H n) → passableCell blocked goal n →
       g + 1 ≤ 999999999 →
       gLookup (expand goal W H blocked wrap g cur ns (o, gs)).2 n ≤ g + 1) ∧
     (∀ p, gLookup (expand goal W H blocked wrap g cur ns (o, gs)).2 p ≠
        gLookup gs p →
       ∃ x ∈ (expand goal W H blocked wrap g cur ns (o, gs)).1, x.p = p ∧
         x.g = gLookup (expand goal W H blocked wrap g cur ns (o, gs)).2 p) ∧
     (expand goal W H blocked wrap g cur ns (o, gs)).1.length ≤
       o.length + ns.length) := by
  intro ns
  induction ns with
  | nil =>
    intro o gs hgs
    refine ⟨fun x hx => hx, fun x hx => Or.inl hx, hgs,
      fun p => le_refl _, fun n hn => absurd hn (List.not_mem_nil n),
      fun p hp => absurd rfl hp, by simp [expand]⟩
  | cons n ns ih =>
    intro o gs hgs
    unfold expand
    split_ifs with hskip hblk hpush
    · -- out-of-bounds skip
      obtain ⟨f1, a1, b1, c1, d1, e1, g1⟩ := ih o gs hgs
      refine ⟨f1, ?_, b1, c1, ?_, e1, by
        refine g1.trans ?_
        simp⟩
      · intro x hx
        rcases a1 x hx with hx | hx
        · exact Or.inl hx
        · exact Or.inr ⟨hx.1, hx.2.1, hx.2.2.1,
            List.mem_cons_of_mem _ hx.2.2.2.1, hx.2.2.2.2⟩
      · intro m hm hmf hmp hb
        rcases List.mem_cons.1 hm with hm | hm
        · subst hm
          exact absurd hskip hmf
        · exact d1 m hm hmf hmp hb
    · -- blocked skip
      obtain ⟨f1, a1, b1, c1, d1, e1, g1⟩ := ih o gs hgs
      refine ⟨f1, ?_, b1, c1, ?_, e1, by
        refine g1.trans ?_
        simp⟩
      · intro x hx
        rcases a1 x hx with hx | hx
        · exact Or.inl hx
        · exact Or.inr ⟨hx.1, hx.2.1, hx.2.2.1,
            List.mem_cons_of_mem _ hx.2.2.2.1, hx.2.2.2.2⟩
      · intro m hm hmf hmp hb
        rcases List.mem_cons.1 hm with hm | hm
        · subst hm
          exact absurd hblk hmp
        · exact d1 m hm hmf hmp hb
    · -- push
      have hgbound : g + 1 ≤ 999999999 := by
        rcases gLookup_bound gs hgs n with hd | hd
        · omega
        · omega
      have hgs2 : ∀ pv ∈ ((n, g + 1) :: gs), pv.2 ≤ 999999999 := by
        intro pv hpv
        rcases List.mem_cons.1 hpv with hpv | hpv
        · rw [hpv]
          exact hgbound
        · exact hgs pv hpv
      obtain ⟨f1, a1, b1, c1, d1, e1, g1⟩ := ih
        (⟨g + 1 + heuristic n goal, g + 1, n, some cur⟩ :: o) ((n, g + 1) :: gs)
        hgs2
      refine ⟨?_, ?_, b1, ?_, ?_, ?_, ?_⟩
      · exact fun x hx => f1 x (List.mem_cons_of_mem _ hx)
      · intro x hx
        rcases a1 x hx with hx | hx
        · rcases List.mem_cons.1 hx with hx | hx
          · subst hx
            exact Or.inr ⟨rfl, rfl, rfl, List.mem_cons_self _ _, hskip, hblk,
              hgbound⟩
          · exact Or.inl hx
        · exact Or.inr ⟨hx.1, hx.2.1, hx.2.2.1,
            List.mem_cons_of_mem _ hx.2.2.2.1, hx.2.2.2.2⟩
      · intro p
        refine (c1 p).trans ?_
        rw [gLookup_cons]
        split_ifs with hp
        · subst hp
          omega
        · exact le_refl _
      · intro m hm hmf hmp hb
        rcases List.mem_cons.1 hm with hm | hm
        · subst hm
          refine (c1 m).trans ?_
          rw [gLookup_cons, if_pos rfl]
        · exact d1 m hm hmf hmp hb
      · intro p hp
        by_cases hch : gLookup (expand goal W H blocked wrap g cur ns
            (⟨g + 1 + heuristic n goal, g + 1, n, some cur⟩ :: o,
             (n, g + 1) :: gs)).2 p = gLookup ((n, g + 1) :: gs) p
        · have hpn : p = n := by
            by_contra hpn
            rw [gLookup_cons, if_neg hpn] at hch
            exact hp hch
          subst hpn
          refine ⟨⟨g + 1 + heuristic p goal, g + 1, p, some cur⟩,
            f1 _ (List.mem_cons_self _ _), rfl, ?_⟩
          rw [hch, gLookup_cons, if_pos rfl]
        · exact e1 p hch
      · refine g1.trans ?_
        simp
        omega
    · -- no-improvement skip
      obtain ⟨f1, a1, b1, c1, d1, e1, g1⟩ := ih o gs hgs
      refine ⟨f1, ?_, b1, c1, ?_, e1, by
        refine g1.trans ?_
        simp⟩
      · intro x hx
        rcases a1 x hx with hx | hx
        · exact Or.inl hx
        · exact Or.inr ⟨hx.1, hx.2.1, hx.2.2.1,
            List.mem_cons_of_mem _ hx.2.2.2.1, hx.2.2.2.2⟩
      · intro m hm hmf hmp hb
        rcases List.mem_cons.1 hm with hm | hm
        · subst hm
          refine (c1 m).trans ?_
          omega
        · exact d1 m hm hmf hmp hb

theorem Chain_unique {came : List (Point × Option Point)}
    {op : Option Point} {l1 : List Point} (h1 : Chain came op l1) :
    ∀ {l2 : List Point}, Chain came op l2 → l1 = l2 := by
  induction h1 with
  | nil =>
    intro l2 h2
    cases h2
    rfl
  | cons q oq l hq hl ih =>
    intro l2 h2
    cases h2 with
    | cons _ oq2 l2' hq2 hl2 =>
      rw [hq] at hq2
      injection hq2 with hq2
      subst hq2
      rw [ih hl2]

theorem Chain_mem_sub {came : List (Point × Option Point)}
    {op : Option Point} {l : List Point} (h : Chain came op l) :
    ∀ x ∈ l, ∃ lx, Chain came (some x) lx ∧ lx.length ≤ l.length := by
  induction h with
  | nil => intro x hx; exact absurd hx (List.not_mem_nil x)
  | cons q oq l hq hl ih =>
    intro x hx
    rcases List.mem_append.1 hx with hx | hx
    · obtain ⟨lx, hlx, hlen⟩ := ih x hx
      exact ⟨lx, hlx, by simpa using Nat.le_succ_of_le hlen⟩
    · rw [List.mem_singleton.1 hx]
      exact ⟨l ++ [q], Chain.cons q oq l hq hl, le_refl _⟩

theorem Chain_nodup {came : List (Point × Option Point)}
    {op : Option Point} {l : List Point} (h : Chain came op l) : l.Nodup := by
  induction h with
  | nil => exact List.nodup_nil
  | cons q oq l hq hl ih =>
    rw [List.nodup_append]
    refine ⟨ih, List.nodup_singleton q, ?_⟩
    intro x hx hx2
    rw [List.mem_singleton.1 hx2] at hx
    obtain ⟨lq, hlq, hlen⟩ := Chain_mem_sub hl q hx
    have := Chain_unique hlq (Chain.cons q oq l hq hl)
    rw [this] at hlen
    simp at hlen

theorem lookup_cons_of_ne {p : Point} {v : Option Point}
    {came : List (Point × Option Point)} {q : Point} (h : q ≠ p) :
    ((p, v) :: came).lookup q = came.lookup q := by
  have hb : (q == p) = false := beq_eq_false_iff_ne.2 h
  rw [List.lookup, hb]

theorem lookup_mem {l : List (Point × Option Point)} {q : Point}
    {v : Option Point} (h : l.lookup q = some v) : (q, v) ∈ l := by
  induction l with
  | nil => simp [List.lookup] at h
  | cons pv l ih =>
    obtain ⟨p, w⟩ := pv
    by_cases hq : q = p
    · subst hq
      rw [List.lookup, beq_self_eq_true] at h
      injection h with h
      subst h
      exact List.mem_cons_self _ _
    · rw [lookup_cons_of_ne hq] at h
      exact List.mem_cons_of_mem _ (ih h)

theorem Chain_mem_keys {came : List (Point × Option Point)}
    {op : Option Point} {l : List Point} (h : Chain came op l) :
    ∀ x ∈ l, x ∈ came.map Prod.fst := by
  induction h with
  | nil => intro x hx; exact absurd hx (List.not_mem_nil x)
  | cons q oq l hq hl ih =>
    intro x hx
    rcases List.mem_append.1 hx with hx | hx
    · exact ih x hx
    · rw [List.mem_singleton.1 hx]
      have : (q, oq) ∈ came := lookup_mem hq
      exact List.mem_map.2 ⟨(q, oq), this, rfl⟩

theorem Chain_length_le {came : List (Point × Option Point)}
    {op : Option Point} {l : List Point} (h : Chain came op l)
    (hk : (came.map Prod.fst).Nodup) : l.length ≤ came.length := by
  have hsub : l.Subperm (came.map Prod.fst) :=
    (Chain_nodup h).subperm (Chain_mem_keys h)
  have := hsub.length_le
  simpa using this

theorem Chain_monotone {came : List (Point × Option Point)}
    {p : Point} {v : Option Point} (hfresh : came.lookup p = none)
    {op : Option Point} {l : List Point} (h : Chain came op l) :
    Chain ((p, v) :: came) op l := by
  induction h with
  | nil => exact Chain.nil
  | cons q oq l hq hl ih =>
    refine Chain.cons q oq l ?_ ih
    have hqp : q ≠ p := by
      intro hqp
      subst hqp
      rw [hfresh] at hq
      exact Option.noConfusion hq
    rw [lookup_cons_of_ne hqp]
    exact hq

theorem walkParents_eval {came : List (Point × Option Point)}
    {op : Option Point} {l : List Point} (h : Chain came op l) :
    ∀ (fuel : Nat) (acc : List Point), l.length ≤ fuel →
    walkParents came fuel op acc = l ++ acc := by
  induction h with
  | nil => intro fuel acc _; cases fuel <;> rfl
  | cons q oq l hq hl ih =>
    intro fuel acc hfuel
    cases fuel with
    | zero => simp at hfuel
    | succ k =>
      rw [walkParents, hq]
      have hk : l.length ≤ k := by
        simp at hfuel
        omega
      rw [ih k (q :: acc) hk]
      simp

theorem lookup_cons_self {p : Point} {v : Option Point}
    {came : List (Point × Option Point)} :
    ((p, v) :: came).lookup p = some v := by
  rw [List.lookup, beq_self_eq_true]

theorem lookup_none_not_key {came : List (Point × Option Point)} {p : Point}
    (h : came.lookup p = none) : p ∉ came.map Prod.fst := by
  induction came with
  | nil => simp
  | cons pv came ih =>
    obtain ⟨q, w⟩ := pv
    by_cases hpq : p = q
    · subst hpq
      rw [lookup_cons_self] at h
      exact Option.noConfusion h
    · rw [lookup_cons_of_ne hpq] at h
      simp only [List.map_cons, List.mem_cons]
      rintro (hc | hc)
      · exact hpq hc
      · exact ih h hc

theorem head?_append_left {α : Type} {xs ys : List α} {a : α}
    (h : xs.head? = some a) : (xs ++ ys).head? = some a := by
  cases xs with
  | nil => exact absurd h (by simp)
  | cons x xs => simpa using h

theorem tail_append_of_ne_nil {α : Type} {xs ys : List α} (h : xs ≠ []) :
    (xs ++ ys).tail = xs.tail ++ ys := by
  cases xs with
  | nil => exact absurd rfl h
  | cons x xs => rfl

theorem chain'_concat {α : Type} {R : α → α → Prop} {xs : List α} {a b : α}
    (h1 : List.Chain' R xs) (h2 : xs.getLast? = some a) (h3 : R a b) :
    List.Chain' R (xs ++ [b]) := by
  refine List.chain'_append.2 ⟨h1, List.chain'_singleton b, ?_⟩
  intro x hx y hy
  simp only [List.head?_cons, Option.mem_def, Option.some.injEq] at hy
  rw [h2] at hx
  simp only [Option.mem_def, Option.some.injEq] at hx
  rw [← hx, ← hy]
  exact h3

theorem EntryInvS_monotone {start goal : Point} {W H : Int}
    {blocked : List Point} {wrap : Bool} {came : List (Point × Option Point)}
    {p : Point} {v : Option Point} (hfresh : came.lookup p = none)
    {e : Entry} (h : EntryInvS start goal W H blocked wrap came e) :
    EntryInvS start goal W H blocked wrap ((p, v) :: came) e := by
  obtain ⟨l, hc, hlen, hh, hs, hp⟩ := h.chain
  exact ⟨h.fchar, h.gbound, l, Chain_monotone hfresh hc, hlen, hh, hs, hp⟩

/-- Soundness of the search loop: whatever it returns is a real path: it has
`g + 1` cells for the goal entry's g-score `g` (bounded by the sentinel),
starts at `start`, ends at `goal`, takes only legal steps, and enters no
blocked cell other than the goal. -/
theorem astarLoop_sound (start goal : Point) (W H : Int)
    (blocked : List Point) (wrap : Bool) :
    ∀ (fuel : Nat) (o : List Entry) (came : List (Point × Option Point))
      (gs : List (Point × Nat)),
    (came.map Prod.fst).Nodup →
    (∀ e ∈ o, EntryInvS start goal W H blocked wrap came e) →
    (∀ pv ∈ gs, pv.2 ≤ 999999999) →
    ∀ pl, astarLoop goal W H blocked wrap fuel o came gs = some pl →
    ∃ gN, gN ≤ 999999999 ∧ pl.length = gN + 1 ∧ pl.head? = some start ∧
      pl.getLast? = some goal ∧ List.Chain' (stepOK wrap W H) pl ∧
      ∀ c ∈ pl.tail, passableCell blocked goal c := by
  intro fuel
  induction fuel with
  | zero =>
    intro o came gs _ _ _ pl h
    exact Option.noConfusion h
  | succ fuel ih =>
    intro o came gs hkeys hinv hgs pl hres
    rw [astarLoop] at hres
    cases hpop : popMin o with
    | none =>
      rw [hpop] at hres
      exact Option.noConfusion hres
    | some pr =>
      obtain ⟨e, rest⟩ := pr
      rw [hpop] at hres
      dsimp only at hres
      by_cases hgoal : e.p = goal
      · rw [if_pos hgoal] at hres
        injection hres with hres
        obtain ⟨l, hc, hlen, hh, hs, hp⟩ := (hinv e (popMin_mem hpop)).chain
        have hfit : l.length ≤ came.length + 1 :=
          (Chain_length_le hc hkeys).trans (Nat.le_succ _)
        rw [walkParents_eval hc (came.length + 1) [e.p] hfit] at hres
        refine ⟨e.g, (hinv e (popMin_mem hpop)).gbound, ?_, ?_, ?_, ?_, ?_⟩
        · rw [← hres]
          simp [hlen]
        · rw [← hres]
          exact hh
        · rw [← hres, ← hgoal]
          simp
        · rw [← hres]
          exact hs
        · rw [← hres]
          exact hp
      · rw [if_neg hgoal] at hres
        by_cases hfin : (came.lookup e.p).isSome
        · rw [if_pos hfin] at hres
          exact ih rest came gs hkeys
            (fun x hx => hinv x (popMin_rest_mem hpop hx)) hgs pl hres
        · rw [if_neg hfin] at hres
          have hfresh : came.lookup e.p = none :=
            Option.not_isSome_iff_eq_none.1 hfin
          have hkeys2 : (((e.p, e.par) :: came).map Prod.fst).Nodup := by
            simp only [List.map_cons]
            exact List.nodup_cons.2 ⟨lookup_none_not_key hfresh, hkeys⟩
          obtain ⟨hf1, ha1, hb1, hc1, hd1, he1, hg1⟩ :=
            expand_spec goal W H blocked wrap e.g e.p
              (neighbors wrap W H e.p) rest gs hgs
          refine ih _ _ _ hkeys2 ?_ hb1 pl hres
          intro x hx
          rcases ha1 x hx with hx | hx
          · exact EntryInvS_monotone hfresh
              (hinv x (popMin_rest_mem hpop hx))
          · obtain ⟨hpar, hg, hf, hmem, hok, hpass, hgb⟩ := hx
            obtain ⟨l, hc, hlen, hh, hs, hp⟩ :=
              (hinv e (popMin_mem hpop)).chain
            rw [← hg] at hf
            refine ⟨hf, hgb, l ++ [e.p], ?_, ?_, ?_, ?_, ?_⟩
            · rw [hpar]
              exact Chain.cons e.p e.par l lookup_cons_self
                (Chain_monotone hfresh hc)
            · simp [hlen, hg]
            · exact head?_append_left hh
            · exact chain'_concat hs (by simp) ⟨hmem, hok⟩
            · intro c hcm
              rw [tail_append_of_ne_nil (by simp)] at hcm
              rcases List.mem_append.1 hcm with hcm | hcm
              · exact hp c hcm
              · rw [List.mem_singleton.1 hcm]
                exact hpass

/-- Top-level soundness: a returned path has head `start`, last cell `goal`,
only legal steps, no blocked interior cells, and `g + 1` cells with
`g ≤ 999999999`. -/
theorem astar_sound {start goal : Point} {W H : Int}
    {blocked : List Point} {wrap : Bool} {pl : List Point}
    (h : astar start goal W H blocked wrap = some pl) :
    ∃ gN, gN ≤ 999999999 ∧ pl.length = gN + 1 ∧ pl.head? = some start ∧
      pl.getLast? = some goal ∧ List.Chain' (stepOK wrap W H) pl ∧
      ∀ c ∈ pl.tail, passableCell blocked goal c := by
  refine astarLoop_sound start goal W H blocked wrap
    (4 * (W.toNat * H.toNat) + 8) [⟨heuristic start goal, 0, start, none⟩]
    [] [(start, 0)] (by simp) ?_ ?_ pl h
  · intro e he
    rw [List.mem_singleton.1 he]
    exact ⟨by simp, Nat.zero_le _, [], Chain.nil, rfl, rfl,
      List.chain'_singleton start, by simp⟩
  · intro pv hpv
    rw [List.mem_singleton.1 hpv]
    omega

/-- One non-wrap neighbor step lowers the Manhattan distance by at most one. -/
theorem heuristic_step {W H : Int} {a b goal : Point}
    (h : b ∈ neighbors false W H a) :
    heuristic a goal ≤ heuristic b goal + 1 := by
  simp only [neighbors, Bool.false_eq_true, if_false, List.mem_cons,
    List.mem_singleton, List.not_mem_nil, or_false] at h
  unfold heuristic
  rcases h with h | h | h | h <;> rw [h] <;> dsimp only <;> omega

/-- Admissibility of the Manhattan heuristic in non-wrap mode: a legal path
from `a` to `b` has at least `heuristic a b + 1` cells. -/
theorem heuristic_le_chain {W H : Int} :
    ∀ (l : List Point), List.Chain' (stepOK false W H) l →
    ∀ a b, l.head? = some a → l.getLast? = some b →
    heuristic a b + 1 ≤ l.length := by
  intro l
  induction l with
  | nil =>
    intro _ a b ha
    exact absurd ha (by simp)
  | cons x rest ih =>
    intro hch a b ha hb
    cases rest with
    | nil =>
      simp only [List.head?_cons, Option.some.injEq] at ha
      simp only [List.getLast?_singleton, Option.some.injEq] at hb
      rw [← ha, ← hb]
      simp [heuristic]
    | cons c rest2 =>
      simp only [List.head?_cons, Option.some.injEq] at ha
      rw [List.chain'_cons] at hch
      have h1 := ih hch.2 c b rfl (by rw [← hb]; simp [List.getLast?_cons_cons])
      have h2 : heuristic a b ≤ heuristic c b + 1 := by
        rw [← ha]
        exact heuristic_step hch.1.1
      simp only [List.length_cons] at h1 ⊢
      omega

theorem heuristic_self (a : Point) : heuristic a a = 0 := by
  simp [heuristic]

theorem heuristic_eq_zero {a b : Point} (h : heuristic a b = 0) : a = b := by
  obtain ⟨ax, ay⟩ := a
  obtain ⟨bx, by'⟩ := b
  unfold heuristic at h
  dsimp only at h
  have hx : ax = bx := by omega
  have hy : ay = by' := by omega
  rw [hx, hy]

theorem not_oob_inBounds {W H : Int} {p : Point} :
    ¬ oob W H p ↔ inBounds W H p := by
  unfold oob inBounds
  omega

theorem neighbors_length (wrap : Bool) (W H : Int) (c : Point) :
    (neighbors wrap W H c).length = 4 := by
  unfold neighbors
  split <;> rfl

theorem bindPureInt (l : List Nat) :
    (do let a ← l; pure ((a : Int))) = l.map Int.ofNat := by
  show l.flatMap (fun a => [(a : Int)]) = l.map Int.ofNat
  induction l with
  | nil => rfl
  | cons x xs ih =>
    rw [List.flatMap_cons, ih]
    rfl

theorem gridList_eq (W H : Int) :
    gridList W H = (List.range W.toNat).flatMap fun x =>
      (List.range H.toNat).map fun y => ((x : Int), ((y : Nat) : Int)) := by
  unfold gridList
  rw [bindPureInt]
  simp [List.map_map, Function.comp_def]

theorem gridList_length (W H : Int) :
    (gridList W H).length = W.toNat * H.toNat := by
  rw [gridList_eq]
  generalize W.toNat = n
  generalize H.toNat = m
  induction n with
  | zero => simp
  | succ n ih =>
    rw [List.range_succ, List.flatMap_append, List.length_append, ih]
    simp [Nat.succ_mul]

theorem mem_gridList {W H : Int} {p : Point} :
    p ∈ gridList W H ↔ inBounds W H p := by
  obtain ⟨a, b⟩ := p
  rw [gridList_eq]
  unfold inBounds
  simp only [List.mem_flatMap, List.mem_map, List.mem_range, Prod.mk.injEq]
  constructor
  · rintro ⟨x, hx, y, hy, h1, h2⟩
    omega
  · rintro ⟨h1, h2, h3, h4⟩
    exact ⟨a.toNat, by omega, b.toNat, by omega, by omega, by omega⟩

theorem keys_length_le {came : List (Point × Option Point)} {W H : Int}
    (hnd : (came.map Prod.fst).Nodup)
    (hin : ∀ k ∈ came.map Prod.fst, inBounds W H k) :
    came.length ≤ W.toNat * H.toNat := by
  have hsub : came.map Prod.fst ⊆ gridList W H :=
    fun k hk => mem_gridList.2 (hin k hk)
  have h := (List.subperm_of_subset hnd hsub).length_le
  rw [List.length_map, gridList_length] at h
  exact h

/-- Consistency of the Manhattan heuristic, telescoped along a legal walk:
the heuristic changes by at most one per step, so from index `i` it is at
most `d` plus its value `d` steps later. -/
theorem walk_telescope {W H : Int} {goal : Point} {w : Nat → Point} {D : Nat}
    (hstep : ∀ i, i < D → w (i + 1) ∈ neighbors false W H (w i)) :
    ∀ d i, i + d ≤ D →
      heuristic (w i) goal ≤ d + heuristic (w (i + d)) goal := by
  intro d
  induction d with
  | zero =>
    intro i _
    simp
  | succ k ih =>
    intro i hi
    have h1 : heuristic (w i) goal ≤ heuristic (w (i + 1)) goal + 1 :=
      heuristic_step (hstep i (by omega))
    have h2 := ih (i + 1) (by omega)
    have h3 : i + 1 + k = i + (k + 1) := by omega
    rw [h3] at h2
    omega

/-- The frontier: the least walk index not yet finalized has an open entry
with g-score at most its index, hence f-value at most `D` (by consistency
telescoped to the goal); every smaller walk index is already finalized. -/
theorem frontier_entry {start goal : Point} {W H : Int}
    {blocked : List Point} {w : Nat → Point} {D : Nat} {o : List Entry}
    {came : List (Point × Option Point)} {gs : List (Point × Nat)}
    (inv : LoopInv start goal W H blocked w D o came gs)
    (hw0 : w 0 = start) (hwD : w D = goal) (hDb : D ≤ 999999999)
    (hstep : ∀ i, i < D → w (i + 1) ∈ neighbors false W H (w i)) :
    ∃ i, i ≤ D ∧ came.lookup (w i) = none ∧
      (∀ k, k < i → came.lookup (w k) ≠ none) ∧
      ∃ x ∈ o, x.p = w i ∧ x.g ≤ i ∧ x.f ≤ D := by
  have hex : ∃ j, came.lookup (w j) = none := ⟨D, by rw [hwD]; exact inv.goalFresh⟩
  classical
  set i := Nat.find hex with hi
  have hspec : came.lookup (w i) = none := Nat.find_spec hex
  have hle : i ≤ D := Nat.find_le (by rw [hwD]; exact inv.goalFresh)
  have hgs : gLookup gs (w i) ≤ i := by
    cases hi0 : i with
    | zero =>
      rw [hw0]
      rw [inv.startG]
    | succ k =>
      have hkfin : came.lookup (w k) ≠ none :=
        Nat.find_min hex (by omega)
      have hkD : k < D := by omega
      have := inv.nbrG k hkD hkfin
      omega
  obtain ⟨x, hxo, hxp, hxg⟩ := inv.ginv (w i) hspec (by omega)
  refine ⟨i, hle, hspec, fun k hk => Nat.find_min hex hk, x, hxo, hxp,
    by omega, ?_⟩
  have hf := (inv.entryInv x hxo).fchar
  have htel := @walk_telescope W H goal w D hstep (D - i) i (by omega)
  have h3 : i + (D - i) = D := by omega
  rw [h3, hwD, heuristic_self] at htel
  rw [hf, hxp]
  omega

/-- Completeness and optimality of the search loop: given a legal `D`-step
witness walk to the goal and the loop invariant, sufficient fuel makes the
loop return a path of at most `D + 1` cells from `start` to `goal`. -/
theorem astarLoop_complete (start goal : Point) (W H : Int)
    (blocked : List Point) (w : Nat → Point) (D : Nat)
    (hw0 : w 0 = start) (hwD : w D = goal) (hDb : D ≤ 999999999)
    (hstep : ∀ i, i < D → w (i + 1) ∈ neighbors false W H (w i))
    (hinb : ∀ i, i ≤ D → inBounds W H (w i))
    (hpass : ∀ i, 1 ≤ i → i ≤ D → passableCell blocked goal (w i)) :
    ∀ (fuel : Nat) (o : List Entry) (came : List (Point × Option Point))
      (gs : List (Point × Nat)),
    LoopInv start goal W H blocked w D o came gs →
    o.length + 4 * (W.toNat * H.toNat + 1 - came.length) ≤ fuel →
    ∃ pl gN, astarLoop goal W H blocked false fuel o came gs = some pl ∧
      gN ≤ D ∧ pl.length = gN + 1 ∧ pl.head? = some start ∧
      pl.getLast? = some goal := by
  intro fuel
  induction fuel with
  | zero =>
    intro o came gs inv hfuel
    have hcb : came.length ≤ W.toNat * H.toNat :=
      keys_length_le inv.keysNodup inv.keysInB
    omega
  | succ fuel ih =>
    intro o came gs inv hfuel
    have hcb : came.length ≤ W.toNat * H.toNat :=
      keys_length_le inv.keysNodup inv.keysInB
    obtain ⟨i, hiD, hifr, himin, x, hxo, hxp, hxg, hxf⟩ :=
      frontier_entry inv hw0 hwD hDb hstep
    cases hpop : popMin o with
    | none =>
      exact absurd (popMin_none.1 hpop) (List.ne_nil_of_mem hxo)
    | some pr =>
      obtain ⟨e, rest⟩ := pr
      have holen : o.length = rest.length + 1 := by
        have := (popMin_perm hpop).length_eq
        simpa using this
      rw [astarLoop, hpop]
      dsimp only
      by_cases hgoal : e.p = goal
      · rw [if_pos hgoal]
        obtain ⟨l, hc, hlen, hh, hs, hp⟩ :=
          (inv.entryInv e (popMin_mem hpop)).chain
        have hfit : l.length ≤ came.length + 1 :=
          (Chain_length_le hc inv.keysNodup).trans (Nat.le_succ _)
        rw [walkParents_eval hc (came.length + 1) [e.p] hfit]
        have hef : e.f ≤ x.f := keyLe_f (popMin_min hpop x hxo)
        have hfc := (inv.entryInv e (popMin_mem hpop)).fchar
        rw [hgoal, heuristic_self] at hfc
        refine ⟨l ++ [e.p], e.g, rfl, by omega, by simp [hlen], hh, ?_⟩
        rw [hgoal]
        simp
      · rw [if_neg hgoal]
        by_cases hfin : (came.lookup e.p).isSome
        · rw [if_pos hfin]
          refine ih rest came gs ?_ (by omega)
          refine ⟨inv.keysNodup,
            fun y hy => inv.entryInv y (popMin_rest_mem hpop hy),
            inv.gsBound, inv.goalFresh,
            fun y hy => inv.openInB y (popMin_rest_mem hpop hy),
            inv.keysInB,
            fun y hy => inv.gsEntry y (popMin_rest_mem hpop hy),
            inv.startG, ?_, inv.nbrG⟩
          intro p hpf hpb
          obtain ⟨y, hyo, hyp, hyg⟩ := inv.ginv p hpf hpb
          refine ⟨y, popMin_mem_rest hpop hyo (fun he => ?_), hyp, hyg⟩
          rw [he] at hyp
          rw [hyp, hpf] at hfin
          simp at hfin
        · rw [if_neg hfin]
          have hfresh : came.lookup e.p = none :=
            Option.not_isSome_iff_eq_none.1 hfin
          have heinb : inBounds W H e.p := inv.openInB e (popMin_mem hpop)
          obtain ⟨f1, a1, b1, c1, d1, e1, g1⟩ :=
            expand_spec goal W H blocked false e.g e.p
              (neighbors false W H e.p) rest gs inv.gsBound
          have hegw : ∀ j, j ≤ D → e.p = w j → e.g ≤ j := by
            intro j hj hej
            have hjfr : came.lookup (w j) = none := by
              rw [← hej]
              exact hfresh
            have hij : i ≤ j := by
              by_contra hc
              exact himin j (by omega) hjfr
            have htel := @walk_telescope W H goal w D hstep (j - i) i
              (by omega)
            have h3 : i + (j - i) = j := by omega
            rw [h3] at htel
            have hef : e.f ≤ x.f := keyLe_f (popMin_min hpop x hxo)
            have hfc := (inv.entryInv e (popMin_mem hpop)).fchar
            have hxfc := (inv.entryInv x hxo).fchar
            rw [hej] at hfc
            rw [hxp] at hxfc
            omega
          refine ih _ _ _ ?_ ?_
          · refine ⟨?_, ?_, b1, ?_, ?_, ?_, ?_, ?_, ?_, ?_⟩
            · simp only [List.map_cons]
              exact List.nodup_cons.2 ⟨lookup_none_not_key hfresh,
                inv.keysNodup⟩
            · intro y hy
              rcases a1 y hy with hy' | hy'
              · exact EntryInvS_monotone hfresh
                  (inv.entryInv y (popMin_rest_mem hpop hy'))
              · obtain ⟨hpar, hg, hf, hmem, hok, hpassY, hgb⟩ := hy'
                obtain ⟨l, hc, hlen, hh, hs, hp⟩ :=
                  (inv.entryInv e (popMin_mem hpop)).chain
                rw [← hg] at hf
                refine ⟨hf, hgb, l ++ [e.p], ?_, ?_, ?_, ?_, ?_⟩
                · rw [hpar]
                  exact Chain.cons e.p e.par l lookup_cons_self
                    (Chain_monotone hfresh hc)
                · simp [hlen, hg]
                · exact head?_append_left hh
                · exact chain'_concat hs (by simp) ⟨hmem, hok⟩
                · intro c hcm
                  rw [tail_append_of_ne_nil (by simp)] at hcm
                  rcases List.mem_append.1 hcm with hcm | hcm
                  · exact hp c hcm
                  · rw [List.mem_singleton.1 hcm]
                    exact hpassY
            · rw [lookup_cons_of_ne (fun h => hgoal h.symm)]
              exact inv.goalFresh
            · intro y hy
              rcases a1 y hy with hy' | hy'
              · exact inv.openInB y (popMin_rest_mem hpop hy')
              · refine not_oob_inBounds.1 (fun hoob => ?_)
                exact hy'.2.2.2.2.1 ⟨by simp, hoob⟩
            · intro k hk
              simp only [List.map_cons, List.mem_cons] at hk
              rcases hk with rfl | hk
              · exact heinb
              · exact inv.keysInB k hk
            · intro y hy
              rcases a1 y hy with hy' | hy'
              · exact (c1 y.p).trans
                  (inv.gsEntry y (popMin_rest_mem hpop hy'))
              · obtain ⟨hpar, hg, hf, hmem, hok, hpassY, hgb⟩ := hy'
                have := d1 y.p hmem hok hpassY (by omega)
                omega
            · have := c1 start
              rw [inv.startG] at this
              omega
            · intro p hpf hpb
              have hpe : p ≠ e.p := by
                rintro rfl
                rw [lookup_cons_self] at hpf
                exact Option.noConfusion hpf
              rw [lookup_cons_of_ne hpe] at hpf
              by_cases hch : gLookup
                  (expand goal W H blocked false e.g e.p
                    (neighbors false W H e.p) (rest, gs)).2 p = gLookup gs p
              · obtain ⟨y, hyo, hyp, hyg⟩ := inv.ginv p hpf (by omega)
                refine ⟨y, f1 y (popMin_mem_rest hpop hyo (fun he => ?_)),
                  hyp, by omega⟩
                rw [he] at hyp
                exact hpe hyp.symm
              · obtain ⟨y, hyo, hyp, hyg⟩ := e1 p hch
                exact ⟨y, hyo, hyp, hyg⟩
            · intro j hj hjfin
              by_cases hwe : w j = e.p
              · have hegj : e.g ≤ j := hegw j (by omega) hwe.symm
                have hmem : w (j + 1) ∈ neighbors false W H e.p := by
                  rw [← hwe]
                  exact hstep j hj
                have := d1 (w (j + 1)) hmem
                  (fun hco => not_oob_inBounds.2
                    (hinb (j + 1) (by omega)) hco.2)
                  (hpass (j + 1) (by omega) (by omega)) (by omega)
                omega
              · rw [lookup_cons_of_ne (fun h => hwe h)] at hjfin
                have := c1 (w (j + 1))
                have := inv.nbrG j hj hjfin
                omega
          · rw [neighbors_length] at g1
            simp only [List.length_cons]
            omega

theorem gLookup_nil (p : Point) : gLookup [] p = 1000000000 := rfl

/-- Top-level completeness/optimality: a legal `D`-step witness walk makes
`astar` return a path of at most `D + 1` cells from `start` to `goal`. -/
theorem astar_complete (start goal : Point) (W H : Int)
    (blocked : List Point) (w : Nat → Point) (D : Nat)
    (hw0 : w 0 = start) (hwD : w D = goal) (hDb : D ≤ 999999999)
    (hstep : ∀ i, i < D → w (i + 1) ∈ neighbors false W H (w i))
    (hinb : ∀ i, i ≤ D → inBounds W H (w i))
    (hpass : ∀ i, 1 ≤ i → i ≤ D → passableCell blocked goal (w i)) :
    ∃ pl gN, astar start goal W H blocked false = some pl ∧ gN ≤ D ∧
      pl.length = gN + 1 ∧ pl.head? = some start ∧
      pl.getLast? = some goal := by
  unfold astar
  refine astarLoop_complete start goal W H blocked w D hw0 hwD hDb hstep
    hinb hpass (4 * (W.toNat * H.toNat) + 8)
    [⟨heuristic start goal, 0, start, none⟩] [] [(start, 0)] ?_ ?_
  · refine ⟨by simp, ?_, ?_, rfl, ?_, by simp, ?_, ?_, ?_, ?_⟩
    · intro e he
      rw [List.mem_singleton.1 he]
      exact ⟨by simp, Nat.zero_le _, [], Chain.nil, rfl, rfl,
        List.chain'_singleton start, by simp⟩
    · intro pv hpv
      rw [List.mem_singleton.1 hpv]
      exact Nat.zero_le _
    · intro e he
      rw [List.mem_singleton.1 he]
      rw [← hw0]
      exact hinb 0 (Nat.zero_le D)
    · intro e he
      rw [List.mem_singleton.1 he]
      rw [gLookup_cons, if_pos rfl]
    · rw [gLookup_cons, if_pos rfl]
    · intro p _ hpb
      by_cases hps : p = start
      · subst hps
        refine ⟨⟨heuristic p goal, 0, p, none⟩, List.mem_singleton_self _,
          rfl, ?_⟩
        rw [gLookup_cons, if_pos rfl]
      · rw [gLookup_cons, if_neg hps, gLookup_nil] at hpb
        omega
    · intro j _ hjf
      exact absurd rfl hjf
  · simp only [List.length_singleton, List.length_nil]
    omega

theorem stepToward_heuristic {goal p : Point} (h : heuristic p goal ≠ 0) :
    heuristic (stepToward goal p) goal + 1 = heuristic p goal := by
  obtain ⟨px, py⟩ := p
  obtain ⟨gx, gy⟩ := goal
  unfold heuristic at h ⊢
  unfold stepToward
  dsimp only at h ⊢
  split_ifs <;> dsimp only <;> omega

theorem stepToward_mem {W H : Int} {goal p : Point} :
    stepToward goal p ∈ neighbors false W H p := by
  obtain ⟨px, py⟩ := p
  unfold stepToward
  simp only [neighbors, Bool.false_eq_true, if_false]
  split_ifs <;> simp

theorem stepToward_between {W H : Int} {goal p : Point}
    (hp : inBounds W H p) (hg : inBounds W H goal)
    (hne : heuristic p goal ≠ 0) :
    inBounds W H (stepToward goal p) := by
  obtain ⟨px, py⟩ := p
  obtain ⟨gx, gy⟩ := goal
  unfold heuristic at hne
  unfold inBounds at hp hg ⊢
  unfold stepToward
  dsimp only at hp hg hne ⊢
  split_ifs <;> dsimp only <;> omega

theorem walkTo_h (start goal : Point) :
    ∀ i, i ≤ heuristic start goal →
      heuristic (walkTo start goal i) goal = heuristic start goal - i := by
  intro i
  induction i with
  | zero =>
    intro _
    rfl
  | succ k ih =>
    intro hk
    have hkk := ih (by omega)
    have hne : heuristic (walkTo start goal k) goal ≠ 0 := by omega
    have hst := stepToward_heuristic hne
    show heuristic (stepToward goal (walkTo start goal k)) goal = _
    omega

theorem walkTo_goal (start goal : Point) :
    walkTo start goal (heuristic start goal) = goal := by
  have h := walkTo_h start goal (heuristic start goal) le_rfl
  rw [Nat.sub_self] at h
  exact heuristic_eq_zero h

theorem walkTo_inb {W H : Int} {start goal : Point}
    (hs : inBounds W H start) (hg : inBounds W H goal) :
    ∀ i, i ≤ heuristic start goal → inBounds W H (walkTo start goal i) := by
  intro i
  induction i with
  | zero =>
    intro _
    exact hs
  | succ k ih =>
    intro hk
    have hne : heuristic (walkTo start goal k) goal ≠ 0 := by
      have := walkTo_h start goal k (by omega)
      omega
    exact stepToward_between (ih (by omega)) hg hne

theorem walkTo_step {W H : Int} (start goal : Point) (i : Nat) :
    walkTo start goal (i + 1) ∈ neighbors false W H (walkTo start goal i) :=
  stepToward_mem

set_option maxRecDepth 100000 in
/-- C1 counterexample: on a 10×3 wrap grid the Manhattan heuristic from
(1,0) to (8,0) is 7, yet a legal wrap path with only 3 steps (4 cells)
exists — the heuristic overestimates the true wrap distance, so it is not
admissible under wrap — and `astar` in wrap mode returns an 8-cell path,
which is therefore not a shortest path. -/
theorem C1_counterexample :
    heuristic ((1 : Int), (0 : Int)) ((8 : Int), (0 : Int)) = 7 ∧
    List.Chain' (stepOK true 10 3)
      [((1 : Int), (0 : Int)), (0, 0), (9, 0), (8, 0)] ∧
    ([((1 : Int), (0 : Int)), (0, 0), (9, 0), (8, 0)] : List Point).head? =
      some (1, 0) ∧
    ([((1 : Int), (0 : Int)), (0, 0), (9, 0), (8, 0)] : List Point).getLast? =
      some (8, 0) ∧
    ([((1 : Int), (0 : Int)), (0, 0), (9, 0), (8, 0)] : List Point).length = 4 ∧
    astar ((1 : Int), (0 : Int)) ((8 : Int), (0 : Int)) 10 3 [] true =
      some [(1, 0), (2, 0), (3, 0), (4, 0), (5, 0), (6, 0), (7, 0), (8, 0)] :=
  ⟨by decide,
    List.chain'_cons.2 ⟨by decide, List.chain'_cons.2 ⟨by decide,
      List.chain'_cons.2 ⟨by decide, List.chain'_singleton _⟩⟩⟩,
    by decide, by decide, by decide, by decide⟩

/-- C1 (amended): in non-wrap topology the Manhattan heuristic is
admissible — it never exceeds the step count of any legal path: every
non-wrap path from `a` to `b` has at least `heuristic a b + 1` cells. -/
theorem C1_admissible_nonwrap (W H : Int) (l : List Point) (a b : Point)
    (hch : List.Chain' (stepOK false W H) l)
    (hhd : l.head? = some a) (hlast : l.getLast? = some b) :
    heuristic a b + 1 ≤ l.length :=
  heuristic_le_chain l hch a b hhd hlast

/-- Witness for C1 (amended) on a concrete 3-cell path. -/
theorem C1_admissible_nonwrap_witness :
    List.Chain' (stepOK false 10 10)
      [((0 : Int), (0 : Int)), (1, 0), (1, 1)] ∧
    ([((0 : Int), (0 : Int)), (1, 0), (1, 1)] : List Point).head? =
      some (0, 0) ∧
    ([((0 : Int), (0 : Int)), (1, 0), (1, 1)] : List Point).getLast? =
      some (1, 1) ∧
    heuristic ((0 : Int), (0 : Int)) ((1 : Int), (1 : Int)) + 1 ≤
      ([((0 : Int), (0 : Int)), (1, 0), (1, 1)] : List Point).length :=
  ⟨List.chain'_cons.2 ⟨by decide, List.chain'_cons.2 ⟨by decide,
      List.chain'_singleton _⟩⟩,
    by decide, by decide,
    C1_admissible_nonwrap 10 10 [((0 : Int), (0 : Int)), (1, 0), (1, 1)]
      ((0 : Int), (0 : Int)) ((1 : Int), (1 : Int))
      (List.chain'_cons.2 ⟨by decide, List.chain'_cons.2 ⟨by decide,
        List.chain'_singleton _⟩⟩)
      (by decide) (by decide)⟩

/-- C8 counterexample: on a huge obstacle-free non-wrap grid with start and
goal both in bounds but at Manhattan distance 10^9 — past the `1e9`
g-score sentinel default — `astar` returns no path at all, although the
claim promises success for every in-bounds pair on an obstacle-free grid. -/
theorem C8_counterexample :
    inBounds 1100000000 1 ((0 : Int), (0 : Int)) ∧
    inBounds 1100000000 1 ((1000000000 : Int), (0 : Int)) ∧
    astar ((0 : Int), (0 : Int)) ((1000000000 : Int), (0 : Int))
      1100000000 1 [] false = none := by
  refine ⟨by decide, by decide, ?_⟩
  cases hres : astar ((0 : Int), (0 : Int)) ((1000000000 : Int), (0 : Int))
      1100000000 1 [] false with
  | none => rfl
  | some pl =>
    exfalso
    obtain ⟨gN, hgb, hlen, hhd, hlast, hch, _⟩ := astar_sound hres
    have hadm := heuristic_le_chain pl hch _ _ hhd hlast
    have hh : heuristic ((0 : Int), (0 : Int))
        ((1000000000 : Int), (0 : Int)) = 1000000000 := by decide
    omega

/-- C8 (amended): on an obstacle-free non-wrap grid, for in-bounds start and
goal whose Manhattan distance stays below the `1e9` g-score sentinel,
`astar` succeeds and returns a path of exactly `heuristic start goal + 1`
cells, start first and goal last. -/
theorem C8_obstacle_free (start goal : Point) (W H : Int)
    (hs : inBounds W H start) (hg : inBounds W H goal)
    (hb : heuristic start goal ≤ 999999999) :
    ∃ pl, astar start goal W H [] false = some pl ∧
      pl.length = heuristic start goal + 1 ∧
      pl.head? = some start ∧ pl.getLast? = some goal := by
  obtain ⟨pl, gN, hres, hgD, hlen, hhd, hlast⟩ :=
    astar_complete start goal W H [] (walkTo start goal)
      (heuristic start goal) rfl (walkTo_goal start goal) hb
      (fun i _ => walkTo_step start goal i)
      (walkTo_inb hs hg)
      (fun i _ _ => by simp [passableCell])
  obtain ⟨gN2, _, hlen2, hhd2, hlast2, hch2, _⟩ := astar_sound hres
  have hadm := heuristic_le_chain pl hch2 start goal hhd2 hlast2
  exact ⟨pl, hres, by omega, hhd, hlast⟩

/-- Witness for C8 (amended): the spec's own example, (0,0) to (3,4) on an
obstacle-free 10×10 grid — an 8-cell path. -/
theorem C8_obstacle_free_witness :
    inBounds 10 10 ((0 : Int), (0 : Int)) ∧
    inBounds 10 10 ((3 : Int), (4 : Int)) ∧
    heuristic ((0 : Int), (0 : Int)) ((3 : Int), (4 : Int)) ≤ 999999999 ∧
    ∃ pl, astar ((0 : Int), (0 : Int)) ((3 : Int), (4 : Int)) 10 10 []
        false = some pl ∧
      pl.length = heuristic ((0 : Int), (0 : Int)) ((3 : Int), (4 : Int)) + 1 ∧
      pl.head? = some ((0 : Int), (0 : Int)) ∧
      pl.getLast? = some ((3 : Int), (4 : Int)) :=
  ⟨by decide, by decide, by decide,
    C8_obstacle_free ((0 : Int), (0 : Int)) ((3 : Int), (4 : Int)) 10 10
      (by decide) (by decide) (by decide)⟩

/-- C9 counterexample: the goal cell sits in `blocked` and is reachable by a
legal, in-bounds, passable walk (10^9 straight steps), yet `astar` returns
no path — the goal exemption fails once the distance reaches the `1e9`
g-score sentinel. -/
theorem C9_counterexample :
    (((1000000000 : Int), (0 : Int)) : Point) ∈
      [(((1000000000 : Int), (0 : Int)) : Point)] ∧
    (∀ i : Nat, i ≤ 1000000000 →
      inBounds 1100000000 1 (((i : Int), (0 : Int)) : Point)) ∧
    (∀ i : Nat, i < 1000000000 →
      ((((i : Int) + 1, (0 : Int))) : Point) ∈
        neighbors false 1100000000 1 ((i : Int), (0 : Int))) ∧
    (∀ i : Nat, 1 ≤ i → i ≤ 1000000000 →
      passableCell [(((1000000000 : Int), (0 : Int)) : Point)]
        ((1000000000 : Int), (0 : Int)) ((i : Int), (0 : Int))) ∧
    astar ((0 : Int), (0 : Int)) ((1000000000 : Int), (0 : Int)) 1100000000 1
      [((1000000000 : Int), (0 : Int))] false = none := by
  refine ⟨by decide, ?_, ?_, ?_, ?_⟩
  · intro i hi
    unfold inBounds
    refine ⟨by omega, by omega, by omega, by omega⟩
  · intro i hi
    simp [neighbors]
  · intro i h1 h2
    unfold passableCell
    simp only [List.mem_singleton]
    tauto
  · cases hres : astar ((0 : Int), (0 : Int))
        ((1000000000 : Int), (0 : Int)) 1100000000 1
        [((1000000000 : Int), (0 : Int))] false with
    | none => rfl
    | some pl =>
      exfalso
      obtain ⟨gN, hgb, hlen, hhd, hlast, hch, _⟩ := astar_sound hres
      have hadm := heuristic_le_chain pl hch _ _ hhd hlast
      have hh : heuristic ((0 : Int), (0 : Int))
          ((1000000000 : Int), (0 : Int)) = 1000000000 := by decide
      omega

/-- C9 (amended): when the goal lies in `blocked` but is reachable by a legal
in-bounds walk whose length stays below the `1e9` g-score sentinel and whose
interior cells are passable, `astar` still returns a path terminating at the
goal, and no cell of that path other than the goal is blocked. -/
theorem C9_goal_exempt (start goal : Point) (W H : Int)
    (blocked : List Point) (w : Nat → Point) (D : Nat)
    (hgb : goal ∈ blocked)
    (hw0 : w 0 = start) (hwD : w D = goal) (hDb : D ≤ 999999999)
    (hstep : ∀ i, i < D → w (i + 1) ∈ neighbors false W H (w i))
    (hinb : ∀ i, i ≤ D → inBounds W H (w i))
    (hpass : ∀ i, 1 ≤ i → i ≤ D → passableCell blocked goal (w i)) :
    ∃ pl, astar start goal W H blocked false = some pl ∧
      pl.getLast? = some goal ∧
      ∀ c ∈ pl.tail, c ∈ blocked → c = goal := by
  obtain ⟨pl, gN, hres, _, _, _, hlast⟩ :=
    astar_complete start goal W H blocked w D hw0 hwD hDb hstep hinb
      hpass
  obtain ⟨_, _, _, _, _, _, hpassT⟩ := astar_sound hres
  refine ⟨pl, hres, hlast, ?_⟩
  intro c hc hcb
  have := hpassT c hc
  unfold passableCell at this
  by_contra hne
  exact this ⟨hcb, hne⟩

/-- Witness for C9 (amended): goal (2,0) blocked on a 3×2 grid together with
(1,0), so the goal is reachable only by the four-step detour through row 1 —
a non-geodesic walk (Manhattan distance is 2). -/
theorem C9_goal_exempt_witness :
    (((2 : Int), (0 : Int)) : Point) ∈
      [(((2 : Int), (0 : Int)) : Point), ((1 : Int), (0 : Int))] ∧
    ∃ pl, astar ((0 : Int), (0 : Int)) ((2 : Int), (0 : Int)) 3 2
        [((2 : Int), (0 : Int)), ((1 : Int), (0 : Int))] false = some pl ∧
      pl.getLast? = some ((2 : Int), (0 : Int)) ∧
      ∀ c ∈ pl.tail,
        c ∈ [(((2 : Int), (0 : Int)) : Point), ((1 : Int), (0 : Int))] →
        c = ((2 : Int), (0 : Int)) :=
  ⟨by decide,
    C9_goal_exempt ((0 : Int), (0 : Int)) ((2 : Int), (0 : Int)) 3 2
      [((2 : Int), (0 : Int)), ((1 : Int), (0 : Int))]
      (fun i => if i = 0 then ((0 : Int), (0 : Int))
        else if i = 1 then ((0 : Int), (1 : Int))
        else if i = 2 then ((1 : Int), (1 : Int))
        else if i = 3 then ((2 : Int), (1 : Int))
        else ((2 : Int), (0 : Int))) 4
      (by decide) (by decide) (by decide) (by decide)
      (by intro i hi; interval_cases i <;> decide)
      (by intro i hi; interval_cases i <;> decide)
      (by intro i h1 h2; interval_cases i <;> decide)⟩


end Snek
